import Mathlib

/-!
Verification development for the repository's three coordination primitives:

* `RefreshManager` (src/src/views/test/demo3/types.ts): single-flight token
  refresh coordinator.
* `WorkerChannel` (src/src/locale/en-US/layout.ts): request/response channel to
  a web worker, with timeouts, soft cancellation and termination.
* `TransferChannel` (src/unnamed/part_009): transfer-capable channel variant
  with clone vs. ownership-transfer buffer semantics.
* `RequestCancelManager` (src/unnamed/part_000): batch cancellation registry.
* The demo2 worker executor (src/src/views/test/demo2/worker.ts): sliced
  compute with soft cancellation through an active-task set.

The JavaScript sources are single-threaded with explicit suspension points, so
each class is embedded as a pure state machine: each method becomes a function
from the state (plus inputs) to the new state together with its observable
effects (promise settlements, messages posted to the worker, aborted
controllers).  Promise resolve/reject sinks are represented by emitting a
`(id, settlement)` pair: emitting such a pair models calling the stored
`resolve`/`reject` callback of the promise created for that id.  Wall-clock
time is abstracted: a `setTimeout` callback becomes an explicit timer-fire
event which can occur only while the timer is scheduled and not yet cleared.
-/

/- ────────────────────────────────────────────────────────────────────────────
   RefreshManager — src/src/views/test/demo3/types.ts lines 66-166.

   Source state: `_refreshing : boolean`, `_cancelled : boolean`, and two
   parallel arrays `_waitResolvers` / `_waitRejectors`.  The two arrays are
   always pushed to together (waitRefresh) and cleared together (cancel,
   startRefresh success/failure paths), so they are embedded as a single list
   of waiter identifiers; settling a waiter id with `WaiterOutcome.resolved`
   models calling its stored resolve callback, `WaiterOutcome.rejected msg`
   models calling its stored reject callback with `new Error(msg)`.
   ──────────────────────────────────────────────────────────────────────── -/

structure RefreshManager where
  refreshing : Bool
  cancelled : Bool
  waiters : List Nat
deriving DecidableEq, Repr

/-- Fresh manager: `_refreshing = false`, `_cancelled = false`, empty queues. -/
def RefreshManager.start : RefreshManager :=
  { refreshing := false, cancelled := false, waiters := [] }

/-- Outcome delivered to one queued waiter. -/
inductive WaiterOutcome
  | resolved
  | rejected (msg : String)
deriving DecidableEq, Repr

/-- `cancel()`: sets `_cancelled`, rejects every queued rejector with
`new Error('Refresh cancelled')`, clears both queues.  `_refreshing` is left
untouched by the source. -/
def RefreshManager.cancel (s : RefreshManager) :
    RefreshManager × List (Nat × WaiterOutcome) :=
  ({ s with cancelled := true, waiters := [] },
   s.waiters.map (fun w => (w, WaiterOutcome.rejected "Refresh cancelled")))

/-- `reset()`: clears `_cancelled` only. -/
def RefreshManager.reset (s : RefreshManager) : RefreshManager :=
  { s with cancelled := false }

/-- Result of a `waitRefresh()` call: either the caller's promise was queued
(with waiter id `wid`), or it was rejected immediately. -/
inductive WaitResult
  | queued (wid : Nat)
  | rejectedNow (msg : String)
deriving DecidableEq, Repr

/-- `waitRefresh()`: rejects immediately when `_cancelled`, otherwise pushes a
new resolver/rejector pair (here: the waiter id `wid`). -/
def RefreshManager.waitRefresh (s : RefreshManager) (wid : Nat) :
    RefreshManager × WaitResult :=
  if s.cancelled then (s, WaitResult.rejectedNow "Refresh cancelled")
  else ({ s with waiters := s.waiters ++ [wid] }, WaitResult.queued wid)

/-- Synchronous prefix of `startRefresh(task)`, up to (not including) the
`await task()` suspension point. -/
inductive StartBeginResult
  | noOp            -- `if (this._refreshing) return;` — resolves with undefined
  | failedCancelled -- `throw new Error('Refresh cancelled')`
  | started         -- flipped `_refreshing := true`, about to await the task
deriving DecidableEq, Repr

/-- The synchronous head of `startRefresh`: guard checks and the atomic flip of
`_refreshing` before anything asynchronous happens. -/
def startRefreshBegin (s : RefreshManager) : RefreshManager × StartBeginResult :=
  if s.refreshing then (s, StartBeginResult.noOp)
  else if s.cancelled then (s, StartBeginResult.failedCancelled)
  else ({ s with refreshing := true }, StartBeginResult.started)

/-- How the awaited `task()` settled. -/
inductive TaskOutcome
  | ok
  | fail (msg : String)
deriving DecidableEq, Repr

/-- What `startRefresh` itself returns/throws after the task settles. -/
inductive StartFinishResult
  | success                 -- returns `res`
  | cancelledAfter          -- `throw new Error('Refresh cancelled after completion')`
  | failed (msg : String)   -- rethrows the task error
deriving DecidableEq, Repr

/-- Continuation of `startRefresh` after `await task()` settles: drains the
waiter queues.  On success with `_cancelled` set mid-flight, the queues are
cleared without settling them (lines 146-151 of the source); on plain success
every resolver is called; on failure every rejector is called with the task's
error. -/
def startRefreshFinish (s : RefreshManager) (t : TaskOutcome) :
    RefreshManager × StartFinishResult × List (Nat × WaiterOutcome) :=
  match t with
  | TaskOutcome.ok =>
      if s.cancelled then
        ({ s with refreshing := false, waiters := [] },
         StartFinishResult.cancelledAfter, [])
      else
        ({ s with refreshing := false, waiters := [] },
         StartFinishResult.success,
         s.waiters.map (fun w => (w, WaiterOutcome.resolved)))
  | TaskOutcome.fail m =>
      ({ s with refreshing := false, waiters := [] },
       StartFinishResult.failed m,
       s.waiters.map (fun w => (w, WaiterOutcome.rejected m)))

/-- One caller in a same-turn burst: either a `startRefresh(task)` call or a
`waitRefresh()` call. -/
inductive RCall
  | startCall
  | waitCall
deriving DecidableEq, Repr

/-- What a caller observes synchronously during the burst. -/
inductive CallerImmediate
  | owner                  -- became the refresh owner, now awaiting the task
  | resolvedNoOp           -- `startRefresh` returned at the `_refreshing` guard
  | failedFast (msg : String)
  | waiting (wid : Nat)    -- queued by `waitRefresh`
deriving DecidableEq, Repr

/-- One caller's synchronous action; waiter ids are the caller's position in
the burst. -/
def burstStep (s : RefreshManager) (idx : Nat) :
    RCall → RefreshManager × CallerImmediate
  | RCall.startCall =>
      match startRefreshBegin s with
      | (s', StartBeginResult.noOp) => (s', CallerImmediate.resolvedNoOp)
      | (s', StartBeginResult.failedCancelled) =>
          (s', CallerImmediate.failedFast "Refresh cancelled")
      | (s', StartBeginResult.started) => (s', CallerImmediate.owner)
  | RCall.waitCall =>
      match s.waitRefresh idx with
      | (s', WaitResult.queued wid) => (s', CallerImmediate.waiting wid)
      | (s', WaitResult.rejectedNow m) => (s', CallerImmediate.failedFast m)

/-- Runs a same-turn burst of calls; JS is single-threaded, so the calls'
synchronous parts run back to back with no interleaving. -/
def runBurst (s : RefreshManager) (idx : Nat) :
    List RCall → RefreshManager × List CallerImmediate
  | [] => (s, [])
  | c :: cs =>
      let r := burstStep s idx c
      let rest := runBurst r.1 (idx + 1) cs
      (rest.1, r.2 :: rest.2)

/-- Terminal outcome eventually observed by one caller of the burst. -/
inductive FinalOutcome
  | success
  | failure (msg : String)
  | unsettled
deriving DecidableEq, Repr

/-- Maps a caller's immediate status to its terminal outcome, given the finish
result of the owning cycle and the waiter settlements it emitted. -/
def finalOf (settles : List (Nat × WaiterOutcome)) (fin : StartFinishResult) :
    CallerImmediate → FinalOutcome
  | CallerImmediate.owner =>
      match fin with
      | StartFinishResult.success => FinalOutcome.success
      | StartFinishResult.cancelledAfter =>
          FinalOutcome.failure "Refresh cancelled after completion"
      | StartFinishResult.failed m => FinalOutcome.failure m
  | CallerImmediate.resolvedNoOp => FinalOutcome.success
  | CallerImmediate.failedFast m => FinalOutcome.failure m
  | CallerImmediate.waiting wid =>
      match settles.find? (fun p => p.1 == wid) with
      | some (_, WaiterOutcome.resolved) => FinalOutcome.success
      | some (_, WaiterOutcome.rejected m) => FinalOutcome.failure m
      | none => FinalOutcome.unsettled

/-- Whole scenario of claim C1: a same-turn burst of K callers hitting a fresh
manager, then the single awaited task settles with outcome `t` and the owner's
continuation runs.  Returns each caller's terminal outcome and how many times
the task was started (number of callers that reached the task execution). -/
def burstScenario (calls : List RCall) (t : TaskOutcome) :
    List FinalOutcome × Nat :=
  let r := runBurst RefreshManager.start 0 calls
  let owners := r.2.count CallerImmediate.owner
  if owners = 0 then
    -- no caller started a cycle: no task runs, queued waiters stay unsettled
    (r.2.map (fun i =>
      match i with
      | CallerImmediate.resolvedNoOp => FinalOutcome.success
      | CallerImmediate.failedFast m => FinalOutcome.failure m
      | _ => FinalOutcome.unsettled), 0)
  else
    let fin := startRefreshFinish r.1 t
    (r.2.map (finalOf fin.2.2 fin.2.1), owners)

/-- The full operation alphabet of `RefreshManager`, used to characterise the
reachable states.  `startFinishOp` is the continuation of an owning
`startRefresh` after its awaited task settled. -/
inductive ROp
  | cancelOp
  | resetOp
  | waitOp (wid : Nat)
  | startBeginOp
  | startFinishOp (t : TaskOutcome)
deriving DecidableEq, Repr

def rstep (s : RefreshManager) : ROp → RefreshManager
  | ROp.cancelOp => s.cancel.1
  | ROp.resetOp => s.reset
  | ROp.waitOp wid => (s.waitRefresh wid).1
  | ROp.startBeginOp => (startRefreshBegin s).1
  | ROp.startFinishOp t => (startRefreshFinish s t).1

def rrun (s : RefreshManager) (ops : List ROp) : RefreshManager :=
  ops.foldl rstep s

/-- The terminal outcome dictated by the task for the owner and the queued
waiters. -/
def taskFinal : TaskOutcome → FinalOutcome
  | TaskOutcome.ok => FinalOutcome.success
  | TaskOutcome.fail m => FinalOutcome.failure m

/-- Waiter ids (burst positions) queued by a burst started at position `idx`. -/
def burstWaitersFrom (idx : Nat) : List RCall → List Nat
  | [] => []
  | RCall.startCall :: cs => burstWaitersFrom (idx + 1) cs
  | RCall.waitCall :: cs => idx :: burstWaitersFrom (idx + 1) cs

/-- Immediate caller statuses of a burst run while a refresh is already in
flight (`_refreshing = true`, not cancelled). -/
def immsBusy (idx : Nat) : List RCall → List CallerImmediate
  | [] => []
  | RCall.startCall :: cs => CallerImmediate.resolvedNoOp :: immsBusy (idx + 1) cs
  | RCall.waitCall :: cs => CallerImmediate.waiting idx :: immsBusy (idx + 1) cs

/-- Immediate caller statuses of a burst run from the idle, non-cancelled
state: everything before the first `startRefresh` queues, the first
`startRefresh` becomes the owner, everything after it sees `_refreshing`. -/
def immsIdle (idx : Nat) : List RCall → List CallerImmediate
  | [] => []
  | RCall.startCall :: cs => CallerImmediate.owner :: immsBusy (idx + 1) cs
  | RCall.waitCall :: cs => CallerImmediate.waiting idx :: immsIdle (idx + 1) cs

/-- Terminal outcome per immediate status in a burst whose single cycle
settles with `t`: the owner and the waiters follow the task, a `startRefresh`
caller bounced by the `_refreshing` guard has already resolved (with no
value) regardless of `t`. -/
def immFinal (t : TaskOutcome) : CallerImmediate → FinalOutcome
  | CallerImmediate.owner => taskFinal t
  | CallerImmediate.resolvedNoOp => FinalOutcome.success
  | CallerImmediate.failedFast m => FinalOutcome.failure m
  | CallerImmediate.waiting _ => taskFinal t

/-- The outcomes claim C1 actually produces on the code: the first
`startRefresh` caller and every `waitRefresh` caller observe the task's
outcome; every later `startRefresh` caller succeeds immediately no matter how
the task ends. -/
def expectedOutcomes (t : TaskOutcome) : List RCall → List FinalOutcome
  | [] => []
  | RCall.waitCall :: cs => taskFinal t :: expectedOutcomes t cs
  | RCall.startCall :: cs =>
      taskFinal t :: cs.map (fun c =>
        match c with
        | RCall.startCall => FinalOutcome.success
        | RCall.waitCall => taskFinal t)

/- ────────────────────────────────────────────────────────────────────────────
   RequestCancelManager — src/unnamed/part_000 lines 25-143.

   `_pending : Set<{url, controller}>` becomes an insertion-ordered list of
   `(url, controller id)` pairs; `controller.abort()` is modelled by appending
   the controller id to a world-level `aborted` list.  The `Promise.resolve()
   .then(...)` that clears `_isCancelling` runs strictly after all synchronous
   code of the current turn, so it is a separate explicit event and is absent
   from the mid-turn operation alphabet below.
   ──────────────────────────────────────────────────────────────────────── -/

structure RCMState where
  pending : List (String × Nat)
  isCancelling : Bool
deriving DecidableEq, Repr

structure RCMWorld where
  m : RCMState
  aborted : List Nat
deriving DecidableEq, Repr

def RCMWorld.start : RCMWorld :=
  { m := { pending := [], isCancelling := false }, aborted := [] }

/-- `add(url, controller)`: while a sweep is in progress the controller is
aborted at once and not registered; otherwise it joins the pending set. -/
def RCMadd (w : RCMWorld) (url : String) (c : Nat) : RCMWorld :=
  if w.m.isCancelling then { w with aborted := w.aborted ++ [c] }
  else { w with m := { w.m with pending := w.m.pending ++ [(url, c)] } }

/-- Set iteration with `break` after the first identity match. -/
def removeFirstCtrl : List (String × Nat) → Nat → List (String × Nat)
  | [], _ => []
  | p :: rest, c => if p.2 = c then rest else p :: removeFirstCtrl rest c

/-- `remove(controller)`: deletes the first registered entry holding this
controller. -/
def RCMremove (w : RCMWorld) (c : Nat) : RCMWorld :=
  { w with m := { w.m with pending := removeFirstCtrl w.m.pending c } }

/-- `cancelAll(reason)`: raises the sweep flag, aborts every registered
controller, clears the set.  The flag is lowered only by the scheduled
microtask (`RCMflagClear`), which runs after the current synchronous turn. -/
def RCMcancelAll (w : RCMWorld) : RCMWorld :=
  { m := { pending := [], isCancelling := true },
    aborted := w.aborted ++ w.m.pending.map Prod.snd }

/-- The `Promise.resolve().then(() => { this._isCancelling = false })`
continuation. -/
def RCMflagClear (w : RCMWorld) : RCMWorld :=
  { w with m := { w.m with isCancelling := false } }

def RCMgetPendingUrls (w : RCMWorld) : List String :=
  w.m.pending.map Prod.fst

/-- Operations that can run in the same synchronous turn as `cancelAll`, i.e.
before the scheduled microtask lowers the sweep flag.  `RCMflagClear` is
deliberately not in this alphabet. -/
inductive RCMMidOp
  | addOp (url : String) (c : Nat)
  | removeOp (c : Nat)
  | cancelAllOp
deriving DecidableEq, Repr

def runMid (w : RCMWorld) : List RCMMidOp → RCMWorld
  | [] => w
  | RCMMidOp.addOp u c :: ops => runMid (RCMadd w u c) ops
  | RCMMidOp.removeOp c :: ops => runMid (RCMremove w c) ops
  | RCMMidOp.cancelAllOp :: ops => runMid (RCMcancelAll w) ops

/- ────────────────────────────────────────────────────────────────────────────
   WorkerChannel — src/src/locale/en-US/layout.ts lines 83-264.

   The pending map `Map<number, PendingRequest>` becomes an insertion-ordered
   association list `(id, timeout ms)`; the resolve/reject/onProgress sinks are
   represented by emitted settlements.  A pending entry also stands for its
   scheduled `setTimeout` handle: every code path that deletes an entry first
   calls `clearTimeout` on the handle stored in it (timeout callback, `cancel`,
   the response branch of `handleMessage`, `rejectAllPending`), and the timeout
   callback itself removes the entry when it fires, so "entry present" and
   "timer scheduled and not cleared" coincide; `WorkerChannel.timerFire` is
   therefore a no-op when the id has no entry (the timer was cleared).
   ──────────────────────────────────────────────────────────────────────── -/

/-- `WorkerAction` from demo2 types: the closed action set. -/
inductive WAction
  | echo
  | uppercase
  | compute
deriving DecidableEq, Repr

/-- The `{type: 'response', ...}` payload of `WorkerToMainMessage`: `data` and
`error` are optional fields in the source. -/
structure WorkerResponse where
  id : Nat
  ok : Bool
  action : WAction
  data? : Option String
  error? : Option String
  duration : Nat
deriving DecidableEq, Repr

/-- Worker→main messages handled by `WorkerChannel.handleMessage`. -/
inductive WorkerToMain
  | readyMsg
  | progressMsg (id : Nat) (percent : Nat)
  | responseMsg (r : WorkerResponse)
deriving DecidableEq, Repr

/-- Main→worker messages posted by the channel. -/
inductive MainToWorker
  | initMsg
  | requestMsg (id : Nat) (action : WAction) (payload : String)
  | cancelMsg (id : Nat)
deriving DecidableEq, Repr

/-- A settlement of the promise returned by `request`: `resolvedData` is the
`{data, duration, action}` object, `rejectedMsg` is `reject(new Error(msg))`. -/
inductive WSettle
  | resolvedData (data : String) (duration : Nat) (action : WAction)
  | rejectedMsg (msg : String)
deriving DecidableEq, Repr

structure WorkerChannel where
  requestId : Nat
  /-- `(request id, timeout ms)`; see the header comment for why one entry also
  stands for its live timeout timer. -/
  pending : List (Nat × Nat)
  /-- `none`: ready unsettled (both sinks non-null); `some true`: resolved;
  `some false`: rejected.  The source nulls both sinks at first settlement. -/
  readyState : Option Bool
  /-- The handshake timer (`readyTimeoutId`) is scheduled and not cleared. -/
  readyTimer : Bool
deriving DecidableEq, Repr

/-- Channel right after the constructor ran: `requestId = 1`, empty pending
map, ready unsettled, handshake timer running. -/
def WorkerChannel.fresh : WorkerChannel :=
  { requestId := 1, pending := [], readyState := none, readyTimer := true }

/-- `Map.delete id` on an id-keyed map held as an association list (keys are
unique, so filtering the key out is the same as deleting the entry). -/
def mdelete {β : Type} (l : List (Nat × β)) (id : Nat) : List (Nat × β) :=
  l.filter (fun p => p.1 != id)

/-- `Map.get id` on an id-keyed association list. -/
def mfind {β : Type} (l : List (Nat × β)) (id : Nat) : Option (Nat × β) :=
  l.find? (fun p => p.1 == id)

def timeoutText (t : Nat) : String := "请求超时（>" ++ toString t ++ "ms）"

def unknownWorkerErrorText : String := "未知 Worker 错误"

def taskCancelledText : String := "任务已取消"

def mainTerminatedText : String := "Worker 已被主线程终止"

/-- `request(action, payload, options)`: allocates the next id, registers the
pending entry together with its timeout timer, posts the tagged request
message.  Returns (new state, assigned id, posted messages).  The `onRequestId`
callback is the returned id; `sentAt`/`durationMs` are wall-clock or
pass-through data with no channel-side logic and are omitted. -/
def WorkerChannel.request (s : WorkerChannel) (action : WAction)
    (payload : String) (timeout : Nat) :
    WorkerChannel × Nat × List MainToWorker :=
  ({ s with requestId := s.requestId + 1,
            pending := s.pending ++ [(s.requestId, timeout)] },
   s.requestId,
   [MainToWorker.requestMsg s.requestId action payload])

/-- The `setTimeout` callback registered by `request`: deletes the id from the
pending map and rejects with the timeout error.  It can only run while its
timer is scheduled and not cleared, i.e. while the entry is present. -/
def WorkerChannel.timerFire (s : WorkerChannel) (id : Nat) :
    WorkerChannel × List (Nat × WSettle) :=
  match mfind s.pending id with
  | some (_, t) =>
      ({ s with pending := mdelete s.pending id },
       [(id, WSettle.rejectedMsg (timeoutText t))])
  | none => (s, [])

/-- `cancel(id)`: returns silently when the id is absent; otherwise clears the
timer, deletes the entry, rejects with `'任务已取消'`, and posts the soft-cancel
notification to the worker. -/
def WorkerChannel.cancel (s : WorkerChannel) (id : Nat) :
    WorkerChannel × List (Nat × WSettle) × List MainToWorker :=
  match mfind s.pending id with
  | none => (s, [], [])
  | some _ =>
      ({ s with pending := mdelete s.pending id },
       [(id, WSettle.rejectedMsg taskCancelledText)],
       [MainToWorker.cancelMsg id])

/-- `terminate()`: clears the handshake timer, fails `ready` if unsettled,
rejects every pending request (clearing each timer), empties the map.  The
final `worker.terminate()` kills the worker itself and is outside the state. -/
def WorkerChannel.terminate (s : WorkerChannel) :
    WorkerChannel × List (Nat × WSettle) :=
  ({ s with readyTimer := false,
            readyState := if s.readyState = none then some false else s.readyState,
            pending := [] },
   s.pending.map (fun p => (p.1, WSettle.rejectedMsg mainTerminatedText)))

/-- `handleMessage`: `ready` settles the handshake (once); `progress` only
feeds the per-request callback and never touches the promise; `response` for an
unknown id is dropped, otherwise the entry is removed and the promise settled —
rejected with `error ?? '未知 Worker 错误'` when `!ok`, else resolved with
`{action, duration, data ?? ''}`. -/
def WorkerChannel.handleMessage (s : WorkerChannel) (m : WorkerToMain) :
    WorkerChannel × List (Nat × WSettle) :=
  match m with
  | WorkerToMain.readyMsg =>
      ({ s with readyTimer := false,
                readyState := if s.readyState = none then some true else s.readyState },
       [])
  | WorkerToMain.progressMsg _ _ => (s, [])
  | WorkerToMain.responseMsg r =>
      match mfind s.pending r.id with
      | none => (s, [])
      | some _ =>
          if r.ok then
            ({ s with pending := mdelete s.pending r.id },
             [(r.id, WSettle.resolvedData (r.data?.getD "") r.duration r.action)])
          else
            ({ s with pending := mdelete s.pending r.id },
             [(r.id, WSettle.rejectedMsg (r.error?.getD unknownWorkerErrorText))])

/-- Events that drive a `WorkerChannel`: caller-side calls, worker messages,
and timer fires. -/
inductive WEvent
  | req (action : WAction) (payload : String) (timeout : Nat)
  | fromWorker (m : WorkerToMain)
  | timerFire (id : Nat)
  | cancelCall (id : Nat)
  | terminateCall
deriving DecidableEq, Repr

def stepWC (s : WorkerChannel) : WEvent → WorkerChannel × List (Nat × WSettle)
  | WEvent.req a p t => ((s.request a p t).1, [])
  | WEvent.fromWorker m => s.handleMessage m
  | WEvent.timerFire id => s.timerFire id
  | WEvent.cancelCall id => ((s.cancel id).1, (s.cancel id).2.1)
  | WEvent.terminateCall => s.terminate

/-- Runs an event trace, accumulating all promise settlements in order. -/
def runWC (s : WorkerChannel) : List WEvent → WorkerChannel × List (Nat × WSettle)
  | [] => (s, [])
  | e :: es =>
      let r := stepWC s e
      let rest := runWC r.1 es
      (rest.1, r.2 ++ rest.2)

/-- `causes e id o`: event `e` is the terminal event that settles request `id`
with outcome `o`, with the settled value determined by `e` alone. -/
def causes (e : WEvent) (id : Nat) (o : WSettle) : Prop :=
  match e with
  | WEvent.fromWorker (WorkerToMain.responseMsg r) =>
      r.id = id ∧
      ((r.ok = true ∧ o = WSettle.resolvedData (r.data?.getD "") r.duration r.action) ∨
       (r.ok = false ∧ o = WSettle.rejectedMsg (r.error?.getD unknownWorkerErrorText)))
  | WEvent.timerFire i => i = id ∧ ∃ t, o = WSettle.rejectedMsg (timeoutText t)
  | WEvent.cancelCall i => i = id ∧ o = WSettle.rejectedMsg taskCancelledText
  | WEvent.terminateCall => o = WSettle.rejectedMsg mainTerminatedText
  | _ => False

/-- Well-formedness maintained by every event: pending ids are below the next
id and pairwise distinct. -/
def WCinv (s : WorkerChannel) : Prop :=
  (∀ k ∈ s.pending.map Prod.fst, k < s.requestId) ∧ (s.pending.map Prod.fst).Nodup

/- ────────────────────────────────────────────────────────────────────────────
   TransferChannel — src/unnamed/part_009 lines 122-314.

   `ArrayBuffer`s live in a world-level store `buffers : List (Nat × Nat)`
   mapping a buffer identity to its current `byteLength`; `postMessage(msg,
   [buffer])` detaches the caller's buffer, i.e. sets its length to 0, in the
   same synchronous call.  `bufferRef` keeps the buffer identity so that
   `_handleMessage` can read the *current* length at response time.  As with
   `WorkerChannel`, a pending entry stands for its own uncleared timeout timer.
   `sentAt`/`roundTrip` are wall-clock diagnostics and are omitted.
   ──────────────────────────────────────────────────────────────────────── -/

inductive TransferMode
  | clone
  | transfer
deriving DecidableEq, Repr

/-- `TRANSFER_CHANNEL_ERROR_CODE`. -/
inductive TCErrorCode
  | channelTerminated
  | requestTimeout
  | readyFailed
  | workerFailed
  | sendFailed
deriving DecidableEq, Repr

/-- `ProcessResult` minus the wall-clock `roundTrip` field. -/
structure ProcessResult where
  checksum : Nat
  byteLength : Nat
  processTime : Nat
  mode : TransferMode
  bufferAfterSend : Nat
deriving DecidableEq, Repr

/-- One pending `process` request (`PendingRequest` of the transfer variant). -/
structure TCPendingEntry where
  mode : TransferMode
  bufId : Nat
  timeout : Nat
deriving DecidableEq, Repr

structure TransferChannel where
  isTerminated : Bool
  requestId : Nat
  pending : List (Nat × TCPendingEntry)
  readyState : Option Bool
  readyTimer : Bool
deriving DecidableEq, Repr

def TransferChannel.fresh : TransferChannel :=
  { isTerminated := false, requestId := 1, pending := [],
    readyState := none, readyTimer := true }

/-- A transfer-channel world: the channel plus the buffer store. -/
structure TCWorld where
  chan : TransferChannel
  buffers : List (Nat × Nat)
deriving DecidableEq, Repr

/-- `buffer.byteLength` (0 for an unknown identity). -/
def bufLen (bs : List (Nat × Nat)) (b : Nat) : Nat :=
  ((bs.find? (fun p => p.1 == b)).map Prod.snd).getD 0

/-- Detaching a buffer: its backing store is relinquished, `byteLength`
becomes 0. -/
def detach (bs : List (Nat × Nat)) (b : Nat) : List (Nat × Nat) :=
  bs.map (fun p => if p.1 = b then (p.1, 0) else p)

/-- A settlement of the promise returned by `send`. -/
inductive TCSettle
  | resolvedResult (r : ProcessResult)
  | rejectedErr (code : TCErrorCode) (msg : String)
deriving DecidableEq, Repr

def tcTerminatedText : String := "TransferChannel 已终止"

def tcMainTerminatedText : String := "Worker 已被主线程终止"

/-- What `send` did synchronously. -/
inductive SendOutcome
  /-- The returned promise was rejected before anything was registered. -/
  | rejectedFast (code : TCErrorCode) (msg : String)
  /-- The request was registered under this id and the message posted. -/
  | accepted (id : Nat)
deriving DecidableEq, Repr

/-- `send(buffer, mode, timeout)`: fails fast with `CHANNEL_TERMINATED` on a
terminated channel; otherwise allocates the next id, schedules the timeout,
registers the pending entry (keeping `bufferRef`), and posts the `process`
message — with the buffer in the transfer list when `mode = 'transfer'`, which
detaches the caller's buffer in this same call.  The `postMessage`-throw path
(`SEND_FAILED`) is not modelled: the embedded `postMessage` always succeeds. -/
def TCsend (w : TCWorld) (b : Nat) (mode : TransferMode) (timeout : Nat) :
    TCWorld × SendOutcome :=
  if w.chan.isTerminated then
    (w, SendOutcome.rejectedFast TCErrorCode.channelTerminated tcTerminatedText)
  else
    let id := w.chan.requestId
    ({ chan := { w.chan with
                  requestId := id + 1,
                  pending := w.chan.pending ++ [(id, ⟨mode, b, timeout⟩)] },
       buffers := if mode = TransferMode.transfer then detach w.buffers b
                  else w.buffers },
     SendOutcome.accepted id)

/-- The `setTimeout` callback scheduled by `send`; as for `WorkerChannel`, it
can only run while its entry (= uncleared timer) is present. -/
def TCtimerFire (w : TCWorld) (id : Nat) : TCWorld × List (Nat × TCSettle) :=
  match mfind w.chan.pending id with
  | some (_, e) =>
      ({ w with chan := { w.chan with pending := mdelete w.chan.pending id } },
       [(id, TCSettle.rejectedErr TCErrorCode.requestTimeout (timeoutText e.timeout))])
  | none => (w, [])

/-- `terminate()`: guarded by `_isTerminated` (idempotent); sets the flag,
rejects `ready` if unsettled, rejects all pending requests with
`CHANNEL_TERMINATED`, clears the map and detaches the worker handlers. -/
def TCterminate (w : TCWorld) : TCWorld × List (Nat × TCSettle) :=
  if w.chan.isTerminated then (w, [])
  else
    ({ w with chan := { w.chan with
        isTerminated := true,
        pending := [],
        readyState := if w.chan.readyState = none then some false
                      else w.chan.readyState,
        readyTimer := false } },
     w.chan.pending.map (fun p =>
       (p.1, TCSettle.rejectedErr TCErrorCode.channelTerminated tcMainTerminatedText)))

/-- `_handleMessage` on a `{type:'result', id, checksum, byteLength,
processTime}` message: ignored on a terminated channel or for an unknown id;
otherwise clears the timer, removes the entry and resolves with a
`ProcessResult` whose `bufferAfterSend` reads the referenced buffer's length
*now*. -/
def TChandleResult (w : TCWorld) (id checksum byteLength processTime : Nat) :
    TCWorld × List (Nat × TCSettle) :=
  if w.chan.isTerminated then (w, [])
  else
    match mfind w.chan.pending id with
    | none => (w, [])
    | some (_, e) =>
        ({ w with chan := { w.chan with pending := mdelete w.chan.pending id } },
         [(id, TCSettle.resolvedResult
            { checksum := checksum, byteLength := byteLength,
              processTime := processTime, mode := e.mode,
              bufferAfterSend := bufLen w.buffers e.bufId })])

/-- `_handleMessage` on `{type:'ready'}`: ignored after termination, otherwise
settles `ready` once. -/
def TChandleReady (w : TCWorld) : TCWorld :=
  if w.chan.isTerminated then w
  else
    { w with chan := { w.chan with
        readyTimer := false,
        readyState := if w.chan.readyState = none then some true
                      else w.chan.readyState } }

/- ────────────────────────────────────────────────────────────────────────────
   Demo2 worker executor — src/src/views/test/demo2/worker.ts.

   `activeTasks : Set<number>` is a duplicate-free list.  `processCompute`
   slices `DURATION_MS` of busy work into `SLICE_MS` quanta; after each quantum
   it posts progress, breaks if the total duration elapsed, and otherwise
   yields (`setTimeout(0)`), at which point queued `cancel` messages run.  The
   loop-head membership check is the soft-cancellation checkpoint.  Slices are
   modelled as atomic units of work; `yields.headD []` is the batch of cancel
   messages processed at the next yield point.
   ──────────────────────────────────────────────────────────────────────── -/

def SLICE_MS : Nat := 100

def DURATION_MS : Nat := 2000

/-- Number of whole compute quanta needed: elapsed reaches `DURATION_MS` at the
end of the 20th slice. -/
def computeTotalSlices : Nat := DURATION_MS / SLICE_MS

abbrev ActiveTasks := List Nat

/-- `activeTasks.add(id)` (Set semantics: no duplicate). -/
def setAdd (s : ActiveTasks) (id : Nat) : ActiveTasks :=
  if id ∈ s then s else s ++ [id]

/-- The `cancel` branch of `self.onmessage`: `activeTasks.delete(msg.id)`. -/
def handleCancel (s : ActiveTasks) (id : Nat) : ActiveTasks :=
  s.erase id

inductive ComputeStatus
  | ok
  | cancelled
deriving DecidableEq, Repr

/-- The `while (true)` loop of `processCompute`, with `remaining` slices left
to reach `DURATION_MS` and `done` slices finished so far.  Head: the
soft-cancel checkpoint.  Body: one atomic compute quantum.  If the total
duration is reached the loop breaks with no further yield; otherwise the task
yields and the next batch of queued `cancel` messages is processed before the
loop re-enters.  Returns (status, slices executed, final active-task set). -/
def computeLoop (id : Nat) :
    Nat → Nat → ActiveTasks → List (List Nat) → ComputeStatus × Nat × ActiveTasks
  | 0, done, s, _ =>
      if id ∈ s then (ComputeStatus.ok, done + 1, s.erase id)
      else (ComputeStatus.cancelled, done, s)
  | 1, done, s, _ =>
      if id ∈ s then (ComputeStatus.ok, done + 1, s.erase id)
      else (ComputeStatus.cancelled, done, s)
  | (n + 2), done, s, yields =>
      if id ∈ s then
        let s' := (yields.headD []).foldl (fun t c => t.erase c) s
        computeLoop id (n + 1) (done + 1) s' yields.tail
      else (ComputeStatus.cancelled, done, s)

/-- `processCompute(id)`: adds the id to the active set, then runs the sliced
loop; `'ok'` deletes the id on completion, `'cancelled'` leaves the set as the
cancel message left it.  `yields` lists, per yield point, the ids of the
`cancel` messages the event loop delivers there. -/
def processCompute (id : Nat) (totalSlices : Nat) (s : ActiveTasks)
    (yields : List (List Nat)) : ComputeStatus × Nat × ActiveTasks :=
  computeLoop id totalSlices 0 (setAdd s id) yields

/-- The `response` the executor posts for a finished compute task:
`ok = (status === 'ok')`, `data` set either way, `error` never set. -/
def computeResponse (id : Nat) (status : ComputeStatus) (duration : Nat) :
    WorkerResponse :=
  { id := id,
    ok := status = ComputeStatus.ok,
    action := WAction.compute,
    data? := some (if status = ComputeStatus.ok then "计算完成" else "任务已取消"),
    error? := none,
    duration := duration }

/-- A concrete happy-path response (id 1 echoes "hi"). -/
def c2resp : WorkerResponse :=
  { id := 1, ok := true, action := WAction.echo, data? := some "hi",
    error? := none, duration := 5 }

/-- A concrete trace: request, matching response, then a late cancel. -/
def c2trace : List WEvent :=
  [WEvent.req WAction.echo "hi" 100,
   WEvent.fromWorker (WorkerToMain.responseMsg c2resp),
   WEvent.cancelCall 1]

/-- A terminated transfer channel holding one 5-byte buffer (identity 0). -/
def termWorld5 : TCWorld :=
  { chan := { TransferChannel.fresh with isTerminated := true }, buffers := [(0, 5)] }

/-- A terminated transfer channel with no buffers. -/
def termWorld0 : TCWorld :=
  { chan := { TransferChannel.fresh with isTerminated := true }, buffers := [] }

/- ━━━ THEOREMS ━━━ -/

/- Generic lemmas about the association-list map helpers. -/

theorem mfind_eq_some_of_mem {β : Type} {l : List (Nat × β)} {id : Nat} {v : β}
    (hnd : (l.map Prod.fst).Nodup) (hmem : (id, v) ∈ l) :
    mfind l id = some (id, v) := by
  induction l with
  | nil => simp at hmem
  | cons p rest ih =>
    rw [List.map_cons, List.nodup_cons] at hnd
    rcases List.mem_cons.mp hmem with h | h
    · rw [← h]
      simp [mfind, List.find?_cons]
    · have hne : ¬ p.1 = id := by
        intro he
        exact hnd.1 (he ▸ (List.mem_map.mpr ⟨(id, v), h, rfl⟩))
      have : (p.1 == id) = false := by
        simpa using hne
      simp only [mfind, List.find?_cons, this]
      exact ih hnd.2 h

theorem mem_of_mfind {β : Type} {l : List (Nat × β)} {id : Nat} {pr : Nat × β}
    (h : mfind l id = some pr) : pr ∈ l ∧ pr.1 = id := by
  refine ⟨List.mem_of_find?_eq_some h, ?_⟩
  have := List.find?_some h
  simpa using this

theorem mem_keys_mdelete {β : Type} {l : List (Nat × β)} {id k : Nat} :
    k ∈ (mdelete l id).map Prod.fst ↔ k ≠ id ∧ k ∈ l.map Prod.fst := by
  simp only [mdelete, List.mem_map, List.mem_filter, bne_iff_ne, ne_eq]
  constructor
  · rintro ⟨p, ⟨hp, hne⟩, rfl⟩
    exact ⟨hne, ⟨p, hp, rfl⟩⟩
  · rintro ⟨hne, ⟨p, hp, rfl⟩⟩
    exact ⟨p, ⟨hp, hne⟩, rfl⟩

theorem not_mem_keys_mdelete_self {β : Type} (l : List (Nat × β)) (id : Nat) :
    id ∉ (mdelete l id).map Prod.fst := by
  intro h
  exact (mem_keys_mdelete.mp h).1 rfl

theorem mfind_mdelete_self {β : Type} (l : List (Nat × β)) (id : Nat) :
    mfind (mdelete l id) id = none := by
  apply List.find?_eq_none.mpr
  intro p hp
  have hne : ¬ p.1 = id := by
    have := (List.mem_filter.mp hp).2
    simpa using this
  simpa using hne

theorem keys_mdelete_sublist {β : Type} (l : List (Nat × β)) (id : Nat) :
    List.Sublist ((mdelete l id).map Prod.fst) (l.map Prod.fst) :=
  (List.filter_sublist l).map Prod.fst

theorem keys_mdelete_subset {β : Type} {l : List (Nat × β)} {id k : Nat}
    (h : k ∈ (mdelete l id).map Prod.fst) : k ∈ l.map Prod.fst :=
  (keys_mdelete_sublist l id).subset h

theorem keys_mdelete_nodup {β : Type} {l : List (Nat × β)} {id : Nat}
    (h : (l.map Prod.fst).Nodup) : ((mdelete l id).map Prod.fst).Nodup :=
  h.sublist (keys_mdelete_sublist l id)

theorem mfind_append_fresh {β : Type} {l : List (Nat × β)} {id : Nat} (v : β)
    (hfresh : ∀ p ∈ l, p.1 ≠ id) :
    mfind (l ++ [(id, v)]) id = some (id, v) := by
  induction l with
  | nil => simp [mfind, List.find?_cons]
  | cons p rest ih =>
    have hne : (p.1 == id) = false := by
      simpa using hfresh p (List.mem_cons_self p rest)
    simp only [mfind, List.cons_append, List.find?_cons, hne]
    exact ih (fun q hq => hfresh q (List.mem_cons_of_mem p hq))

/- ────────────────── Claim C4: cancellation-registry sweep ────────────────── -/

theorem runMid_aborted_mono {a : Nat} :
    ∀ (ops : List RCMMidOp) (w : RCMWorld),
      a ∈ w.aborted → a ∈ (runMid w ops).aborted := by
  intro ops
  induction ops with
  | nil => intro w h; exact h
  | cons op rest ih =>
    intro w h
    cases op with
    | addOp u c =>
        apply ih
        simp only [RCMadd]
        by_cases hc : w.m.isCancelling <;> simp [hc, h, List.mem_append]
    | removeOp c => exact ih _ h
    | cancelAllOp =>
        apply ih
        simp [RCMcancelAll, List.mem_append, h]

theorem runMid_sweeping :
    ∀ (ops : List RCMMidOp) (w : RCMWorld),
      w.m.pending = [] → w.m.isCancelling = true →
      (runMid w ops).m.pending = [] ∧
      (runMid w ops).m.isCancelling = true ∧
      (∀ u c, RCMMidOp.addOp u c ∈ ops → c ∈ (runMid w ops).aborted) := by
  intro ops
  induction ops with
  | nil =>
    intro w h1 h2
    exact ⟨h1, h2, by intro u c hc; simp at hc⟩
  | cons op rest ih =>
    intro w h1 h2
    cases op with
    | addOp u c =>
        have h1' : (RCMadd w u c).m.pending = [] := by simp [RCMadd, h2, h1]
        have h2' : (RCMadd w u c).m.isCancelling = true := by simp [RCMadd, h2]
        have ih' := ih (RCMadd w u c) h1' h2'
        simp only [runMid]
        refine ⟨ih'.1, ih'.2.1, ?_⟩
        intro u' c' hmem
        rcases List.mem_cons.mp hmem with heq | hmem'
        · have hcc : c' = c := by
            injection heq with hu hcc
          rw [hcc]
          apply runMid_aborted_mono rest (RCMadd w u c)
          simp [RCMadd, h2]
        · exact ih'.2.2 u' c' hmem'
    | removeOp c =>
        have h1' : (RCMremove w c).m.pending = [] := by
          simp [RCMremove, h1, removeFirstCtrl]
        have h2' : (RCMremove w c).m.isCancelling = true := by simp [RCMremove, h2]
        have ih' := ih (RCMremove w c) h1' h2'
        simp only [runMid]
        refine ⟨ih'.1, ih'.2.1, ?_⟩
        intro u' c' hmem
        rcases List.mem_cons.mp hmem with heq | hmem'
        · exact absurd heq (by simp)
        · exact ih'.2.2 u' c' hmem'
    | cancelAllOp =>
        have h1' : (RCMcancelAll w).m.pending = [] := rfl
        have h2' : (RCMcancelAll w).m.isCancelling = true := rfl
        have ih' := ih (RCMcancelAll w) h1' h2'
        simp only [runMid]
        refine ⟨ih'.1, ih'.2.1, ?_⟩
        intro u' c' hmem
        rcases List.mem_cons.mp hmem with heq | hmem'
        · exact absurd heq (by simp)
        · exact ih'.2.2 u' c' hmem'

/-- C4: `cancelAll` aborts every handle registered at that moment and clears
the pending set; any `add` performed in the same synchronous turn — while the
sweep flag is still set because the clearing microtask has not yet run — aborts
its handle synchronously and does not register it, so the pending set and
`getPendingUrls()` stay empty for the whole turn. -/
theorem c4_cancelAll_sweep (w : RCMWorld) (ops : List RCMMidOp) :
    (∀ c ∈ w.m.pending.map Prod.snd, c ∈ (RCMcancelAll w).aborted) ∧
    (RCMcancelAll w).m.pending = [] ∧
    (RCMcancelAll w).m.isCancelling = true ∧
    (runMid (RCMcancelAll w) ops).m.pending = [] ∧
    RCMgetPendingUrls (runMid (RCMcancelAll w) ops) = [] ∧
    (runMid (RCMcancelAll w) ops).m.isCancelling = true ∧
    (∀ u c, RCMMidOp.addOp u c ∈ ops → c ∈ (runMid (RCMcancelAll w) ops).aborted) := by
  have hrun := runMid_sweeping ops (RCMcancelAll w) rfl rfl
  refine ⟨?_, rfl, rfl, hrun.1, ?_, hrun.2.1, hrun.2.2⟩
  · intro c hc
    simp [RCMcancelAll, List.mem_append, hc]
  · simp [RCMgetPendingUrls, hrun.1]

/-- Witness for C4 at a concrete input: one registered request is aborted by
the sweep, and a same-turn `add` is aborted and never registered. -/
theorem c4_witness :
    (∀ c ∈ (RCMWorld.mk ⟨[("/api/users", 7)], false⟩ []).m.pending.map Prod.snd,
      c ∈ (RCMcancelAll (RCMWorld.mk ⟨[("/api/users", 7)], false⟩ [])).aborted) ∧
    (RCMcancelAll (RCMWorld.mk ⟨[("/api/users", 7)], false⟩ [])).m.pending = [] ∧
    RCMgetPendingUrls
      (runMid (RCMcancelAll (RCMWorld.mk ⟨[("/api/users", 7)], false⟩ []))
        [RCMMidOp.addOp "/api/retry" 9]) = [] ∧
    (∀ u c, RCMMidOp.addOp u c ∈ [RCMMidOp.addOp "/api/retry" 9] →
      c ∈ (runMid (RCMcancelAll (RCMWorld.mk ⟨[("/api/users", 7)], false⟩ []))
        [RCMMidOp.addOp "/api/retry" 9]).aborted) := by
  have h := c4_cancelAll_sweep (RCMWorld.mk ⟨[("/api/users", 7)], false⟩ [])
    [RCMMidOp.addOp "/api/retry" 9]
  exact ⟨h.1, h.2.1, h.2.2.2.2.1, h.2.2.2.2.2.2⟩

/- ────────────────── Claim C7: cancel(id) semantics ────────────────── -/

/-- C7: if `id` is pending, `cancel(id)` immediately (synchronously, without
any executor acknowledgment) rejects that request's promise with the
cancellation error and posts the soft-cancel notification to the worker; if
`id` is unknown or already settled, it returns silently with no state change,
no settlement and no message. -/
theorem c7_cancel (s : WorkerChannel) (id : Nat) :
    (∀ pr, mfind s.pending id = some pr →
      s.cancel id =
        ({ s with pending := mdelete s.pending id },
         [(id, WSettle.rejectedMsg taskCancelledText)],
         [MainToWorker.cancelMsg id])) ∧
    (mfind s.pending id = none → s.cancel id = (s, [], [])) := by
  constructor
  · intro pr hf
    simp [WorkerChannel.cancel, hf]
  · intro hf
    simp [WorkerChannel.cancel, hf]

/-- Witness for C7: a pending id is cancelled with notification; an unknown id
is a silent no-op. -/
theorem c7_witness :
    ((WorkerChannel.fresh.request WAction.compute "" 60000).1.cancel 1 =
      ({ (WorkerChannel.fresh.request WAction.compute "" 60000).1 with pending := [] },
       [(1, WSettle.rejectedMsg taskCancelledText)],
       [MainToWorker.cancelMsg 1])) ∧
    (WorkerChannel.fresh.cancel 5 = (WorkerChannel.fresh, [], [])) := by
  constructor
  · have h := (c7_cancel (WorkerChannel.fresh.request WAction.compute "" 60000).1 1).1
      (1, 60000) (by decide)
    simpa using h
  · exact (c7_cancel WorkerChannel.fresh 5).2 (by decide)

/- ────────────────── Claim C5: waiter-queue discipline ────────────────── -/

theorem rstep_cancelled_imp_no_waiters {s : RefreshManager}
    (h : s.cancelled = true → s.waiters = []) (op : ROp) :
    (rstep s op).cancelled = true → (rstep s op).waiters = [] := by
  cases op with
  | cancelOp => intro _; rfl
  | resetOp =>
      intro hc
      simp [rstep, RefreshManager.reset] at hc
  | waitOp wid =>
      by_cases hc : s.cancelled
      · simp only [rstep, RefreshManager.waitRefresh, if_pos hc]
        intro _
        exact h hc
      · simp only [rstep, RefreshManager.waitRefresh, if_neg hc]
        intro habs
        exact absurd habs hc
  | startBeginOp =>
      simp only [rstep, startRefreshBegin]
      by_cases hr : s.refreshing
      · simp only [if_pos hr]
        exact h
      · by_cases hc : s.cancelled
        · simp only [if_neg hr, if_pos hc]
          exact h
        · simp only [if_neg hr, if_neg hc]
          exact h
  | startFinishOp t =>
      intro _
      cases t with
      | ok =>
          simp only [rstep, startRefreshFinish]
          by_cases hc : s.cancelled <;> simp [hc]
      | fail m => rfl

theorem rrun_cancelled_imp_no_waiters :
    ∀ (ops : List ROp) (s : RefreshManager),
      (s.cancelled = true → s.waiters = []) →
      ((rrun s ops).cancelled = true → (rrun s ops).waiters = []) := by
  intro ops
  induction ops with
  | nil => intro s h; exact h
  | cons op rest ih =>
      intro s h
      exact ih (rstep s op) (rstep_cancelled_imp_no_waiters h op)

/-- C5 counterexample to the claim as stated: a `waitRefresh()` issued while
the manager is idle queues a waiter, and the next `startRefresh` then begins a
refresh cycle with a non-empty waiter list — so the waiter lists are not empty
immediately before every refresh cycle. -/
theorem c5_counterexample :
    (startRefreshBegin (rstep RefreshManager.start (ROp.waitOp 0))).2 =
      StartBeginResult.started ∧
    (rstep RefreshManager.start (ROp.waitOp 0)).waiters = [0] ∧
    ¬ (rstep RefreshManager.start (ROp.waitOp 0)).waiters = [] := by
  decide

/-- C5 (amended): in every reachable state, (i) once cancelled the waiter
lists are already empty, so the clear-without-settling in the cancelled-success
path of `startRefresh` never drops a live waiter; (ii) the end of a refresh
cycle drains the waiter lists exactly once — all waiters rejected with the
task's error on failure, all resolved on success when not cancelled — leaving
them empty; (iii) `cancel()` immediately rejects every queued waiter (without
waiting for any in-flight task) and empties the lists; (iv) `waitRefresh()`
while cancelled rejects immediately and queues nothing.  The lists need not be
empty immediately *before* a cycle: an idle-state `waitRefresh` queues first. -/
theorem c5_amended (ops : List ROp) :
    ((rrun RefreshManager.start ops).cancelled = true →
      (rrun RefreshManager.start ops).waiters = []) ∧
    (∀ m,
      (startRefreshFinish (rrun RefreshManager.start ops) (TaskOutcome.fail m)).1.waiters = [] ∧
      (startRefreshFinish (rrun RefreshManager.start ops) (TaskOutcome.fail m)).2.2 =
        (rrun RefreshManager.start ops).waiters.map
          (fun w => (w, WaiterOutcome.rejected m))) ∧
    ((rrun RefreshManager.start ops).cancelled = false →
      (startRefreshFinish (rrun RefreshManager.start ops) TaskOutcome.ok).1.waiters = [] ∧
      (startRefreshFinish (rrun RefreshManager.start ops) TaskOutcome.ok).2.2 =
        (rrun RefreshManager.start ops).waiters.map
          (fun w => (w, WaiterOutcome.resolved))) ∧
    ((rrun RefreshManager.start ops).cancelled = true →
      (rrun RefreshManager.start ops).waiters = [] ∧
      (startRefreshFinish (rrun RefreshManager.start ops) TaskOutcome.ok).2.2 = []) ∧
    ((rrun RefreshManager.start ops).cancel.2 =
        (rrun RefreshManager.start ops).waiters.map
          (fun w => (w, WaiterOutcome.rejected "Refresh cancelled")) ∧
      (rrun RefreshManager.start ops).cancel.1.waiters = [] ∧
      (rrun RefreshManager.start ops).cancel.1.cancelled = true) ∧
    (∀ wid, (rrun RefreshManager.start ops).cancelled = true →
      (rrun RefreshManager.start ops).waitRefresh wid =
        (rrun RefreshManager.start ops, WaitResult.rejectedNow "Refresh cancelled")) := by
  have hinv := rrun_cancelled_imp_no_waiters ops RefreshManager.start (by intro h; rfl)
  refine ⟨hinv, ?_, ?_, ?_, ⟨rfl, rfl, rfl⟩, ?_⟩
  · intro m
    exact ⟨rfl, rfl⟩
  · intro hc
    simp [startRefreshFinish, hc]
  · intro hc
    refine ⟨hinv hc, ?_⟩
    simp [startRefreshFinish, hc]
  · intro wid hc
    simp [RefreshManager.waitRefresh, hc]

/-- Witness for C5 at a concrete reachable state (a waiter queued, a cycle in
flight): the failing finish rejects exactly that waiter and empties the list,
`cancel` rejects it, and `waitRefresh` after a cancel rejects immediately. -/
theorem c5_witness :
    ((rrun RefreshManager.start [ROp.waitOp 0, ROp.startBeginOp]).cancelled = true →
      (rrun RefreshManager.start [ROp.waitOp 0, ROp.startBeginOp]).waiters = []) ∧
    (startRefreshFinish (rrun RefreshManager.start [ROp.waitOp 0, ROp.startBeginOp])
        (TaskOutcome.fail "网络错误")).2.2 =
      [(0, WaiterOutcome.rejected "网络错误")] ∧
    (rrun RefreshManager.start [ROp.waitOp 0, ROp.startBeginOp]).cancel.2 =
      [(0, WaiterOutcome.rejected "Refresh cancelled")] ∧
    (rrun RefreshManager.start [ROp.cancelOp]).waitRefresh 3 =
      (rrun RefreshManager.start [ROp.cancelOp], WaitResult.rejectedNow "Refresh cancelled") := by
  have h1 := c5_amended [ROp.waitOp 0, ROp.startBeginOp]
  have h2 := c5_amended [ROp.cancelOp]
  refine ⟨h1.1, ?_, ?_, ?_⟩
  · rw [(h1.2.1 "网络错误").2]
    decide
  · rw [h1.2.2.2.2.1.1]
    decide
  · exact h2.2.2.2.2.2 3 (by decide)

/- ────────────────── Claim C1: single-flight burst semantics ────────────────── -/

theorem runBurst_busy :
    ∀ (calls : List RCall) (s : RefreshManager) (idx : Nat),
      s.cancelled = false → s.refreshing = true →
      runBurst s idx calls =
        ({ s with waiters := s.waiters ++ burstWaitersFrom idx calls },
         immsBusy idx calls) := by
  intro calls
  induction calls with
  | nil =>
      intro s idx hc hr
      simp [runBurst, burstWaitersFrom, immsBusy]
  | cons c cs ih =>
      intro s idx hc hr
      cases c with
      | startCall =>
          have hstep : burstStep s idx RCall.startCall =
              (s, CallerImmediate.resolvedNoOp) := by
            simp [burstStep, startRefreshBegin, hr]
          simp only [runBurst, hstep]
          rw [ih s (idx + 1) hc hr]
          simp [burstWaitersFrom, immsBusy]
      | waitCall =>
          have hstep : burstStep s idx RCall.waitCall =
              ({ s with waiters := s.waiters ++ [idx] },
               CallerImmediate.waiting idx) := by
            simp [burstStep, RefreshManager.waitRefresh, hc]
          simp only [runBurst, hstep]
          rw [ih { s with waiters := s.waiters ++ [idx] } (idx + 1) hc hr]
          simp [burstWaitersFrom, immsBusy, List.append_assoc]

theorem runBurst_idle :
    ∀ (calls : List RCall) (s : RefreshManager) (idx : Nat),
      s.cancelled = false → s.refreshing = false →
      runBurst s idx calls =
        ({ s with refreshing := calls.contains RCall.startCall,
                  waiters := s.waiters ++ burstWaitersFrom idx calls },
         immsIdle idx calls) := by
  intro calls
  induction calls with
  | nil =>
      intro s idx hc hr
      cases s
      simp_all [runBurst, burstWaitersFrom, immsIdle]
  | cons c cs ih =>
      intro s idx hc hr
      cases c with
      | startCall =>
          have hstep : burstStep s idx RCall.startCall =
              ({ s with refreshing := true }, CallerImmediate.owner) := by
            simp [burstStep, startRefreshBegin, hr, hc]
          simp only [runBurst, hstep]
          rw [runBurst_busy cs { s with refreshing := true } (idx + 1) hc rfl]
          simp [burstWaitersFrom, immsIdle]
      | waitCall =>
          have hstep : burstStep s idx RCall.waitCall =
              ({ s with waiters := s.waiters ++ [idx] },
               CallerImmediate.waiting idx) := by
            simp [burstStep, RefreshManager.waitRefresh, hc]
          simp only [runBurst, hstep]
          rw [ih { s with waiters := s.waiters ++ [idx] } (idx + 1) hc hr]
          simp [burstWaitersFrom, immsIdle, List.append_assoc]

theorem immsBusy_count_owner (cs : List RCall) :
    ∀ idx, (immsBusy idx cs).count CallerImmediate.owner = 0 := by
  induction cs with
  | nil => intro idx; rfl
  | cons c cs ih =>
      intro idx
      cases c <;> simp [immsBusy, List.count_cons, ih]

theorem immsIdle_count_owner (cs : List RCall) (h : RCall.startCall ∈ cs) :
    ∀ idx, (immsIdle idx cs).count CallerImmediate.owner = 1 := by
  induction cs with
  | nil => simp at h
  | cons c cs ih =>
      intro idx
      cases c with
      | startCall => simp [immsIdle, List.count_cons, immsBusy_count_owner]
      | waitCall =>
          have h' : RCall.startCall ∈ cs := by
            rcases List.mem_cons.mp h with h0 | h0
            · exact absurd h0 (by decide)
            · exact h0
          simp [immsIdle, List.count_cons, ih h']

theorem immsBusy_waiting_mem :
    ∀ {cs : List RCall} {idx wid : Nat},
      CallerImmediate.waiting wid ∈ immsBusy idx cs →
      wid ∈ burstWaitersFrom idx cs := by
  intro cs
  induction cs with
  | nil => intro idx wid h; simp [immsBusy] at h
  | cons c cs ih =>
      intro idx wid h
      cases c with
      | startCall =>
          simp only [immsBusy, List.mem_cons] at h
          rcases h with h0 | h0
          · exact absurd h0 (by simp)
          · simpa [burstWaitersFrom] using ih h0
      | waitCall =>
          simp only [immsBusy, List.mem_cons] at h
          rcases h with h0 | h0
          · have hw : wid = idx := by
              injection h0 with hw
            subst hw
            simp [burstWaitersFrom]
          · simp only [burstWaitersFrom, List.mem_cons]
            exact Or.inr (ih h0)

theorem immsIdle_waiting_mem :
    ∀ {cs : List RCall} {idx wid : Nat},
      CallerImmediate.waiting wid ∈ immsIdle idx cs →
      wid ∈ burstWaitersFrom idx cs := by
  intro cs
  induction cs with
  | nil => intro idx wid h; simp [immsIdle] at h
  | cons c cs ih =>
      intro idx wid h
      cases c with
      | startCall =>
          simp only [immsIdle, List.mem_cons] at h
          rcases h with h0 | h0
          · exact absurd h0 (by simp)
          · simpa [burstWaitersFrom] using immsBusy_waiting_mem h0
      | waitCall =>
          simp only [immsIdle, List.mem_cons] at h
          rcases h with h0 | h0
          · have hw : wid = idx := by
              injection h0 with hw
            subst hw
            simp [burstWaitersFrom]
          · simp only [burstWaitersFrom, List.mem_cons]
            exact Or.inr (ih h0)

theorem find?_const_settles {W : List Nat} {wid : Nat} {o : WaiterOutcome}
    (h : wid ∈ W) :
    (W.map (fun w => (w, o))).find? (fun p => p.1 == wid) = some (wid, o) := by
  induction W with
  | nil => simp at h
  | cons a rest ih =>
      rcases List.mem_cons.mp h with heq | h'
      · subst heq
        simp [List.find?_cons]
      · by_cases he : a = wid
        · subst he
          simp [List.find?_cons]
        · have : (a == wid) = false := by simpa using he
          simp only [List.map_cons, List.find?_cons, this]
          exact ih h'

theorem map_immFinal_busy (t : TaskOutcome) :
    ∀ (cs : List RCall) (idx : Nat),
      (immsBusy idx cs).map (immFinal t) =
        cs.map (fun c => match c with
          | RCall.startCall => FinalOutcome.success
          | RCall.waitCall => taskFinal t) := by
  intro cs
  induction cs with
  | nil => intro idx; rfl
  | cons c cs ih =>
      intro idx
      cases c <;> simp [immsBusy, immFinal, ih]

theorem map_immFinal_idle (t : TaskOutcome) :
    ∀ (cs : List RCall) (idx : Nat),
      (immsIdle idx cs).map (immFinal t) = expectedOutcomes t cs := by
  intro cs
  induction cs with
  | nil => intro idx; rfl
  | cons c cs ih =>
      intro idx
      cases c with
      | startCall =>
          simp [immsIdle, expectedOutcomes, immFinal, map_immFinal_busy]
      | waitCall =>
          simp [immsIdle, expectedOutcomes, immFinal, ih]

/-- C1 counterexample to the claim as stated: two concurrent `startRefresh`
callers on an idle, non-cancelled manager, task rejects with "boom".  The task
runs exactly once, but the callers do not fail together: the second caller's
`startRefresh` already resolved (with no value) at the `_refreshing` guard,
while the owner rejects. -/
theorem c1_counterexample :
    (burstScenario [RCall.startCall, RCall.startCall] (TaskOutcome.fail "boom")).2 = 1 ∧
    (burstScenario [RCall.startCall, RCall.startCall] (TaskOutcome.fail "boom")).1 =
      [FinalOutcome.failure "boom", FinalOutcome.success] ∧
    ¬ (∀ o ∈ (burstScenario [RCall.startCall, RCall.startCall]
          (TaskOutcome.fail "boom")).1, o = FinalOutcome.failure "boom") := by
  decide

/-- C1 (amended): for every same-turn burst of `startRefresh`/`waitRefresh`
callers hitting an idle, non-cancelled manager and containing at least one
`startRefresh`, the task executes exactly once, and the outcomes are: the
first `startRefresh` caller (the owner) and every `waitRefresh` caller observe
the task's terminal outcome (all succeed if it resolves, all reject with its
error if it rejects); every later `startRefresh` caller returns immediately
with no value — succeeding even when the task later fails. -/
theorem c1_amended (calls : List RCall) (t : TaskOutcome)
    (h : RCall.startCall ∈ calls) :
    (burstScenario calls t).2 = 1 ∧
    (burstScenario calls t).1 = expectedOutcomes t calls := by
  have hcont : calls.contains RCall.startCall = true := by
    simpa using h
  have hrun : runBurst RefreshManager.start 0 calls =
      (⟨true, false, burstWaitersFrom 0 calls⟩, immsIdle 0 calls) := by
    rw [runBurst_idle calls RefreshManager.start 0 rfl rfl]
    simp [RefreshManager.start, hcont]
    exact h
  have hcount := immsIdle_count_owner calls h 0
  constructor
  · simp [burstScenario, hrun, hcount]
  · simp only [burstScenario, hrun, hcount]
    norm_num
    cases t with
    | ok =>
        have hfin : startRefreshFinish
            (⟨true, false, burstWaitersFrom 0 calls⟩ : RefreshManager)
            TaskOutcome.ok =
            (⟨false, false, []⟩, StartFinishResult.success,
             (burstWaitersFrom 0 calls).map (fun w => (w, WaiterOutcome.resolved))) := by
          simp [startRefreshFinish]
        rw [hfin]
        have hmapc : (immsIdle 0 calls).map
            (finalOf ((burstWaitersFrom 0 calls).map
              (fun w => (w, WaiterOutcome.resolved))) StartFinishResult.success) =
            (immsIdle 0 calls).map (immFinal TaskOutcome.ok) := by
          apply List.map_congr_left
          intro i hi
          cases i with
          | owner => rfl
          | resolvedNoOp => rfl
          | failedFast m => rfl
          | waiting wid =>
              have hw := immsIdle_waiting_mem hi
              simp [finalOf, find?_const_settles hw, immFinal, taskFinal]
        rw [hmapc, map_immFinal_idle]
    | fail m =>
        have hfin : startRefreshFinish
            (⟨true, false, burstWaitersFrom 0 calls⟩ : RefreshManager)
            (TaskOutcome.fail m) =
            (⟨false, false, []⟩, StartFinishResult.failed m,
             (burstWaitersFrom 0 calls).map (fun w => (w, WaiterOutcome.rejected m))) := by
          simp [startRefreshFinish]
        rw [hfin]
        have hmapc : (immsIdle 0 calls).map
            (finalOf ((burstWaitersFrom 0 calls).map
              (fun w => (w, WaiterOutcome.rejected m))) (StartFinishResult.failed m)) =
            (immsIdle 0 calls).map (immFinal (TaskOutcome.fail m)) := by
          apply List.map_congr_left
          intro i hi
          cases i with
          | owner => rfl
          | resolvedNoOp => rfl
          | failedFast m' => rfl
          | waiting wid =>
              have hw := immsIdle_waiting_mem hi
              simp [finalOf, find?_const_settles hw, immFinal, taskFinal]
        rw [hmapc, map_immFinal_idle]

/-- Witness for C1 (amended) at a concrete burst: one waiter, the owner, one
late `startRefresh`, with a failing task. -/
theorem c1_witness :
    RCall.startCall ∈ [RCall.waitCall, RCall.startCall, RCall.startCall] ∧
    (burstScenario [RCall.waitCall, RCall.startCall, RCall.startCall]
      (TaskOutcome.fail "expired")).2 = 1 ∧
    (burstScenario [RCall.waitCall, RCall.startCall, RCall.startCall]
        (TaskOutcome.fail "expired")).1 =
      expectedOutcomes (TaskOutcome.fail "expired")
        [RCall.waitCall, RCall.startCall, RCall.startCall] := by
  refine ⟨by decide, ?_⟩
  exact c1_amended _ _ (by decide)

/- ────────────────── Claims C9/C10: executor soft cancellation ────────────────── -/

theorem mem_foldl_erase {batch : List Nat} :
    ∀ {s : ActiveTasks} {id : Nat}, id ∉ batch →
      (id ∈ batch.foldl (fun t c => t.erase c) s ↔ id ∈ s) := by
  induction batch with
  | nil => intro s id _; simp
  | cons c cs ih =>
      intro s id h
      have hne : id ≠ c := fun he => h (he ▸ List.mem_cons_self c cs)
      simp only [List.foldl_cons]
      rw [ih (fun hm => h (List.mem_cons_of_mem c hm))]
      exact List.mem_erase_of_ne hne

theorem mem_of_mem_foldl_erase {batch : List Nat} :
    ∀ {s : ActiveTasks} {id : Nat},
      id ∈ batch.foldl (fun t c => t.erase c) s → id ∈ s := by
  induction batch with
  | nil => intro s id h; exact h
  | cons c cs ih =>
      intro s id h
      simp only [List.foldl_cons] at h
      exact List.erase_subset c s (ih h)

theorem nodup_foldl_erase {batch : List Nat} :
    ∀ {s : ActiveTasks}, s.Nodup → (batch.foldl (fun t c => t.erase c) s).Nodup := by
  induction batch with
  | nil => intro s h; exact h
  | cons c cs ih => intro s h; exact ih (h.erase c)

theorem not_mem_foldl_erase_of_mem {batch : List Nat} :
    ∀ {s : ActiveTasks} {id : Nat}, s.Nodup → id ∈ batch →
      id ∉ batch.foldl (fun t c => t.erase c) s := by
  induction batch with
  | nil => intro s id _ h; simp at h
  | cons c cs ih =>
      intro s id hnd hb
      simp only [List.foldl_cons]
      by_cases he : id = c
      · subst he
        intro hmem
        have hin : id ∈ s.erase id := mem_of_mem_foldl_erase hmem
        exact absurd ((hnd.mem_erase_iff).mp hin).1 (by simp)
      · have hb' : id ∈ cs := by
          rcases List.mem_cons.mp hb with h0 | h0
          · exact absurd h0 he
          · exact h0
        exact ih (hnd.erase c) hb'

theorem setAdd_mem (s : ActiveTasks) (id : Nat) : id ∈ setAdd s id := by
  by_cases h : id ∈ s <;> simp [setAdd, h]

theorem setAdd_nodup {s : ActiveTasks} (h : s.Nodup) (id : Nat) :
    (setAdd s id).Nodup := by
  by_cases hm : id ∈ s
  · simpa [setAdd, hm] using h
  · simp only [setAdd, hm, if_neg]
    simp [List.nodup_append, h, hm]

theorem computeLoop_not_mem (id : Nat) (n done : Nat) (s : ActiveTasks)
    (yields : List (List Nat)) (h : id ∉ s) :
    computeLoop id n done s yields = (ComputeStatus.cancelled, done, s) := by
  match n with
  | 0 => simp [computeLoop, h]
  | 1 => simp [computeLoop, h]
  | (n + 2) => simp [computeLoop, h]

theorem computeLoop_ok (id : Nat) :
    ∀ (n : Nat) (done : Nat) (s : ActiveTasks) (yields : List (List Nat)),
      id ∈ s → s.Nodup → (∀ b ∈ yields, id ∉ b) →
      (computeLoop id n done s yields).1 = ComputeStatus.ok ∧
      (computeLoop id n done s yields).2.1 = done + max n 1 ∧
      id ∉ (computeLoop id n done s yields).2.2 := by
  intro n
  induction n using Nat.strong_induction_on with
  | _ n ih =>
    intro done s yields hmem hnd hy
    match n with
    | 0 =>
        simp only [computeLoop, if_pos hmem]
        refine ⟨by trivial, by omega, ?_⟩
        intro hin
        exact absurd ((hnd.mem_erase_iff).mp hin).1 (by simp)
    | 1 =>
        simp only [computeLoop, if_pos hmem]
        refine ⟨by trivial, by omega, ?_⟩
        intro hin
        exact absurd ((hnd.mem_erase_iff).mp hin).1 (by simp)
    | (n + 2) =>
        have hb : id ∉ yields.headD [] := by
          cases yields with
          | nil => simp
          | cons b bs => exact hy b (List.mem_cons_self b bs)
        have hmem' : id ∈ (yields.headD []).foldl (fun t c => t.erase c) s :=
          (mem_foldl_erase hb).mpr hmem
        have hnd' : ((yields.headD []).foldl (fun t c => t.erase c) s).Nodup :=
          nodup_foldl_erase hnd
        have hy' : ∀ b ∈ yields.tail, id ∉ b :=
          fun b hbmem => hy b (List.mem_of_mem_tail hbmem)
        have hrec := ih (n + 1) (by omega) (done + 1) _ yields.tail hmem' hnd' hy'
        simp only [computeLoop, if_pos hmem]
        refine ⟨hrec.1, ?_, hrec.2.2⟩
        rw [hrec.2.1]
        omega

theorem computeLoop_cancelled (id : Nat) :
    ∀ (pre : List (List Nat)) (n done : Nat) (s : ActiveTasks)
      (batch : List Nat) (rest : List (List Nat)),
      id ∈ s → s.Nodup → (∀ b ∈ pre, id ∉ b) → id ∈ batch →
      pre.length + 2 ≤ n →
      (computeLoop id n done s (pre ++ batch :: rest)).1 = ComputeStatus.cancelled ∧
      (computeLoop id n done s (pre ++ batch :: rest)).2.1 = done + pre.length + 1 := by
  intro pre
  induction pre with
  | nil =>
      intro n done s batch rest hmem hnd _ hb hn
      obtain ⟨m, rfl⟩ : ∃ m, n = m + 2 := ⟨n - 2, by omega⟩
      have hnot : id ∉ batch.foldl (fun t c => t.erase c) s :=
        not_mem_foldl_erase_of_mem hnd hb
      simp only [List.nil_append, computeLoop, if_pos hmem, List.headD_cons,
        List.tail_cons]
      rw [computeLoop_not_mem id (m + 1) (done + 1) _ rest hnot]
      exact ⟨rfl, rfl⟩
  | cons b pre' ih =>
      intro n done s batch rest hmem hnd hpre hb hn
      obtain ⟨m, rfl⟩ : ∃ m, n = m + 2 := ⟨n - 2, by omega⟩
      have hbnot : id ∉ b := hpre b (List.mem_cons_self b pre')
      have hmem' : id ∈ b.foldl (fun t c => t.erase c) s :=
        (mem_foldl_erase hbnot).mpr hmem
      have hnd' : (b.foldl (fun t c => t.erase c) s).Nodup := nodup_foldl_erase hnd
      have hpre' : ∀ bb ∈ pre', id ∉ bb :=
        fun bb hbb => hpre bb (List.mem_cons_of_mem b hbb)
      have hn' : pre'.length + 2 ≤ m + 1 := by
        simp only [List.length_cons] at hn
        omega
      have hrec := ih (m + 1) (done + 1) _ batch rest hmem' hnd' hpre' hb hn'
      simp only [List.cons_append, computeLoop, if_pos hmem, List.headD_cons,
        List.tail_cons]
      refine ⟨hrec.1, ?_⟩
      rw [hrec.2]
      simp only [List.length_cons]
      omega

/-- C9: in the executor, a `cancel` message is a bare set removal — idempotent
and without effect when the id already finished or never sliced; a compute
task checks membership at the checkpoint heading every quantum, so with no
cancellation it runs all its quanta, replies completed and removes its id,
while a cancel delivered at a yield point makes it stop at the very next
checkpoint — after a whole number of quanta, strictly before completion — and
reply cancelled. -/
theorem c9_executor_soft_cancel (s : ActiveTasks) (id : Nat) :
    (id ∉ s → handleCancel s id = s) ∧
    (s.Nodup → handleCancel (handleCancel s id) id = handleCancel s id) ∧
    (∀ n yields, s.Nodup → (∀ b ∈ yields, id ∉ b) →
      (processCompute id n s yields).1 = ComputeStatus.ok ∧
      (processCompute id n s yields).2.1 = max n 1 ∧
      id ∉ (processCompute id n s yields).2.2) ∧
    (∀ n pre batch rest, s.Nodup → (∀ b ∈ pre, id ∉ b) → id ∈ batch →
      pre.length + 2 ≤ n →
      (processCompute id n s (pre ++ batch :: rest)).1 = ComputeStatus.cancelled ∧
      (processCompute id n s (pre ++ batch :: rest)).2.1 = pre.length + 1 ∧
      pre.length + 1 < n) := by
  refine ⟨?_, ?_, ?_, ?_⟩
  · intro h
    exact List.erase_of_not_mem h
  · intro hnd
    apply List.erase_of_not_mem
    intro hmem
    exact ((hnd.mem_erase_iff).mp hmem).1 rfl
  · intro n yields hnd hy
    have h := computeLoop_ok id n 0 (setAdd s id) yields (setAdd_mem s id)
      (setAdd_nodup hnd id) hy
    refine ⟨h.1, ?_, h.2.2⟩
    have h2 := h.2.1
    simp only [processCompute]
    rw [h2]
    omega
  · intro n pre batch rest hnd hpre hb hn
    have h := computeLoop_cancelled id pre n 0 (setAdd s id) batch rest
      (setAdd_mem s id) (setAdd_nodup hnd id) hpre hb hn
    refine ⟨h.1, ?_, by omega⟩
    simp only [processCompute]
    rw [h.2]
    omega

/-- Witness for C9: id 7 cancelled at the first yield stops after 2 of the 20
quanta; with no cancel a 3-quantum run completes. -/
theorem c9_witness :
    (handleCancel [] 7 = []) ∧
    (handleCancel (handleCancel [3, 7] 7) 7 = handleCancel [3, 7] 7) ∧
    ((processCompute 7 computeTotalSlices [] ([[]] ++ [7] :: [])).1 =
        ComputeStatus.cancelled ∧
     (processCompute 7 computeTotalSlices [] ([[]] ++ [7] :: [])).2.1 = 2 ∧
     2 < computeTotalSlices) ∧
    ((processCompute 7 3 [] []).1 = ComputeStatus.ok ∧
     (processCompute 7 3 [] []).2.1 = 3 ∧
     7 ∉ (processCompute 7 3 [] []).2.2) := by
  have h1 := c9_executor_soft_cancel [] 7
  have h2 := c9_executor_soft_cancel [3, 7] 7
  refine ⟨h1.1 (by decide), h2.2.1 (by decide), ?_, ?_⟩
  · have h := h1.2.2.2 computeTotalSlices [[]] [7] [] (by decide)
      (by intro b hb; simp at hb; simp [hb]) (by decide) (by decide)
    exact ⟨h.1, by simpa using h.2.1, by simpa using h.2.2⟩
  · have h := h1.2.2.1 3 [] (by decide) (by intro b hb; simp at hb)
    exact ⟨h.1, by simpa using h.2.1, h.2.2⟩

/-- C10: the executor's response for a soft-cancelled compute task carries
`ok = false` with `data` set to the cancellation text and `error` unset, and
`WorkerChannel.handleMessage` therefore rejects the still-pending request with
the generic fallback text for unknown worker errors rather than any
cancellation-specific error. -/
theorem c10_cancelled_compute_fallback (id dur t : Nat) (s : WorkerChannel) :
    (computeResponse id ComputeStatus.cancelled dur).ok = false ∧
    (computeResponse id ComputeStatus.cancelled dur).data? = some "任务已取消" ∧
    (computeResponse id ComputeStatus.cancelled dur).error? = none ∧
    ((s.pending.map Prod.fst).Nodup → (id, t) ∈ s.pending →
      (s.handleMessage (WorkerToMain.responseMsg
          (computeResponse id ComputeStatus.cancelled dur))).2 =
        [(id, WSettle.rejectedMsg unknownWorkerErrorText)]) := by
  refine ⟨rfl, rfl, rfl, ?_⟩
  intro hnd hmem
  have hf : mfind s.pending id = some (id, t) := mfind_eq_some_of_mem hnd hmem
  simp [WorkerChannel.handleMessage, computeResponse, hf]

/-- Witness for C10: a pending compute request receiving the soft-cancelled
response is rejected with the generic fallback error text. -/
theorem c10_witness :
    ((WorkerChannel.fresh.request WAction.compute "" 60000).1.handleMessage
      (WorkerToMain.responseMsg (computeResponse 1 ComputeStatus.cancelled 2000))).2 =
      [(1, WSettle.rejectedMsg unknownWorkerErrorText)] := by
  exact (c10_cancelled_compute_fallback 1 2000 60000
    (WorkerChannel.fresh.request WAction.compute "" 60000).1).2.2.2
    (by decide) (by decide)

/- ────────────────── Claim C3: clone vs transfer buffer effect ────────────────── -/

theorem bufLen_detach_self (bs : List (Nat × Nat)) (b : Nat) :
    bufLen (detach bs b) b = 0 := by
  induction bs with
  | nil => rfl
  | cons p rest ih =>
      by_cases h : p.1 = b
      · simp [bufLen, detach, List.find?_cons, h]
      · have hne : (p.1 == b) = false := by simpa using h
        simp only [bufLen, detach, List.map_cons, if_neg h, List.find?_cons, hne]
        simpa [bufLen, detach] using ih

/-- C3 counterexample to the claim as stated: `send(buffer, 'transfer')` on a
*terminated* channel rejects fast with `CHANNEL_TERMINATED` before reaching
`postMessage`, so the caller's 5-byte buffer is still 5 bytes — not 0 — after
the call returns. -/
theorem c3_counterexample :
    (TCsend termWorld5 0 TransferMode.transfer 30000).2 =
      SendOutcome.rejectedFast TCErrorCode.channelTerminated tcTerminatedText ∧
    bufLen (TCsend termWorld5 0 TransferMode.transfer 30000).1.buffers 0 = 5 ∧
    ¬ bufLen (TCsend termWorld5 0 TransferMode.transfer 30000).1.buffers 0 = 0 := by
  decide

/-- C3 (amended): on a channel that is *not* terminated (and whose next id is
fresh, as the constructor guarantees), sending a buffer of length N in clone
mode leaves the buffer at length N when the call returns and the direct
response reports `bufferAfterSend = N` (provided no other send transfers the
same buffer in between); sending in transfer mode detaches the buffer to
length 0 in the very send call — before any response — and the response
reports `bufferAfterSend = 0`.  On a terminated channel `send` rejects fast
and the buffer is untouched. -/
theorem c3_amended (w : TCWorld) (b n t : Nat)
    (hterm : w.chan.isTerminated = false)
    (hfresh : ∀ p ∈ w.chan.pending, p.1 ≠ w.chan.requestId)
    (hlen : bufLen w.buffers b = n) :
    ((TCsend w b TransferMode.clone t).2 = SendOutcome.accepted w.chan.requestId ∧
     (TCsend w b TransferMode.clone t).1.buffers = w.buffers ∧
     bufLen (TCsend w b TransferMode.clone t).1.buffers b = n ∧
     (∀ ck bl pt,
       (TChandleResult (TCsend w b TransferMode.clone t).1 w.chan.requestId ck bl pt).2 =
         [(w.chan.requestId, TCSettle.resolvedResult
            { checksum := ck, byteLength := bl, processTime := pt,
              mode := TransferMode.clone, bufferAfterSend := n })])) ∧
    ((TCsend w b TransferMode.transfer t).2 = SendOutcome.accepted w.chan.requestId ∧
     bufLen (TCsend w b TransferMode.transfer t).1.buffers b = 0 ∧
     (∀ ck bl pt,
       (TChandleResult (TCsend w b TransferMode.transfer t).1 w.chan.requestId ck bl pt).2 =
         [(w.chan.requestId, TCSettle.resolvedResult
            { checksum := ck, byteLength := bl, processTime := pt,
              mode := TransferMode.transfer, bufferAfterSend := 0 })])) := by
  constructor
  · refine ⟨?_, ?_, ?_, ?_⟩
    · simp [TCsend, hterm]
    · simp [TCsend, hterm]
    · simp [TCsend, hterm, hlen]
    · intro ck bl pt
      have hfind := mfind_append_fresh (⟨TransferMode.clone, b, t⟩ : TCPendingEntry) hfresh
      simp [TCsend, hterm, TChandleResult, hfind, hlen]
  · refine ⟨?_, ?_, ?_⟩
    · simp [TCsend, hterm]
    · simp [TCsend, hterm, bufLen_detach_self]
    · intro ck bl pt
      have hfind := mfind_append_fresh (⟨TransferMode.transfer, b, t⟩ : TCPendingEntry) hfresh
      simp [TCsend, hterm, TChandleResult, hfind, bufLen_detach_self]

/-- Witness for C3 (amended): a 10-byte buffer on a fresh channel — clone
leaves 10 and reports 10; transfer leaves 0 and reports 0. -/
theorem c3_witness :
    bufLen (TCsend ⟨TransferChannel.fresh, [(0, 10)]⟩ 0 TransferMode.clone 30000).1.buffers 0
      = 10 ∧
    (TChandleResult (TCsend ⟨TransferChannel.fresh, [(0, 10)]⟩ 0
        TransferMode.clone 30000).1 1 123 10 4).2 =
      [(1, TCSettle.resolvedResult
        { checksum := 123, byteLength := 10, processTime := 4,
          mode := TransferMode.clone, bufferAfterSend := 10 })] ∧
    bufLen (TCsend ⟨TransferChannel.fresh, [(0, 10)]⟩ 0
        TransferMode.transfer 30000).1.buffers 0 = 0 ∧
    (TChandleResult (TCsend ⟨TransferChannel.fresh, [(0, 10)]⟩ 0
        TransferMode.transfer 30000).1 1 123 10 4).2 =
      [(1, TCSettle.resolvedResult
        { checksum := 123, byteLength := 10, processTime := 4,
          mode := TransferMode.transfer, bufferAfterSend := 0 })] := by
  have h := c3_amended ⟨TransferChannel.fresh, [(0, 10)]⟩ 0 10 30000 rfl
    (by intro p hp; simp [TransferChannel.fresh] at hp) (by decide)
  exact ⟨h.1.2.2.1, h.1.2.2.2 123 10 4, h.2.2.1, h.2.2.2 123 10 4⟩

/- ────────────────── Claim C6: timeout wins, late response ignored ────────────────── -/

/-- C6: on both channels, when the timeout timer for a pending request fires
first, the request's promise rejects with the request-timeout error (the
`REQUEST_TIMEOUT` code on `TransferChannel`, the `请求超时` error on
`WorkerChannel`), and a response for that id arriving afterwards is silently
dropped — no further settlement, no state change.  Wall-clock proximity to T
is abstracted: the timer-fire event stands for the `setTimeout(…, T)` callback
running at T. -/
theorem c6_timeout_first_wins :
    (∀ (s : WorkerChannel) (id t : Nat),
      (s.pending.map Prod.fst).Nodup → (id, t) ∈ s.pending →
      (s.timerFire id).2 = [(id, WSettle.rejectedMsg (timeoutText t))] ∧
      (∀ r : WorkerResponse, r.id = id →
        (s.timerFire id).1.handleMessage (WorkerToMain.responseMsg r) =
          ((s.timerFire id).1, []))) ∧
    (∀ (w : TCWorld) (id : Nat) (e : TCPendingEntry),
      (w.chan.pending.map Prod.fst).Nodup → (id, e) ∈ w.chan.pending →
      (TCtimerFire w id).2 =
        [(id, TCSettle.rejectedErr TCErrorCode.requestTimeout (timeoutText e.timeout))] ∧
      (∀ ck bl pt, TChandleResult (TCtimerFire w id).1 id ck bl pt =
        ((TCtimerFire w id).1, []))) := by
  constructor
  · intro s id t hnd hmem
    have hf : mfind s.pending id = some (id, t) := mfind_eq_some_of_mem hnd hmem
    have hfire : s.timerFire id =
        ({ s with pending := mdelete s.pending id },
         [(id, WSettle.rejectedMsg (timeoutText t))]) := by
      simp [WorkerChannel.timerFire, hf]
    refine ⟨by rw [hfire], ?_⟩
    intro r hr
    rw [hfire]
    have hnone : mfind (mdelete s.pending id) r.id = none := by
      rw [hr]
      exact mfind_mdelete_self s.pending id
    simp [WorkerChannel.handleMessage, hnone]
  · intro w id e hnd hmem
    have hf : mfind w.chan.pending id = some (id, e) := mfind_eq_some_of_mem hnd hmem
    have hfire : TCtimerFire w id =
        ({ w with chan := { w.chan with pending := mdelete w.chan.pending id } },
         [(id, TCSettle.rejectedErr TCErrorCode.requestTimeout (timeoutText e.timeout))]) := by
      simp [TCtimerFire, hf]
    refine ⟨by rw [hfire], ?_⟩
    intro ck bl pt
    rw [hfire]
    by_cases hT : w.chan.isTerminated
    · simp [TChandleResult, hT]
    · simp [TChandleResult, hT, mfind_mdelete_self]

/-- Witness for C6: a fresh request whose 50ms timer fires is rejected with
the timeout error, and the late response for its id changes nothing. -/
theorem c6_witness :
    ((WorkerChannel.fresh.request WAction.compute "" 50).1.timerFire 1).2 =
      [(1, WSettle.rejectedMsg (timeoutText 50))] ∧
    (((WorkerChannel.fresh.request WAction.compute "" 50).1.timerFire 1).1.handleMessage
      (WorkerToMain.responseMsg
        { id := 1, ok := true, action := WAction.compute,
          data? := some "计算完成", error? := none, duration := 2000 }) =
      (((WorkerChannel.fresh.request WAction.compute "" 50).1.timerFire 1).1, [])) ∧
    ((TCtimerFire (TCsend ⟨TransferChannel.fresh, [(0, 10)]⟩ 0
        TransferMode.clone 30000).1 1).2 =
      [(1, TCSettle.rejectedErr TCErrorCode.requestTimeout (timeoutText 30000))]) := by
  have h1 := c6_timeout_first_wins.1 (WorkerChannel.fresh.request WAction.compute "" 50).1
    1 50 (by decide) (by decide)
  have h2 := c6_timeout_first_wins.2
    (TCsend ⟨TransferChannel.fresh, [(0, 10)]⟩ 0 TransferMode.clone 30000).1 1
    ⟨TransferMode.clone, 0, 30000⟩ (by decide) (by decide)
  exact ⟨h1.1, h1.2 _ rfl, h2.1⟩

/- ────────────────── Claim C8: terminate semantics ────────────────── -/

/-- C8 counterexample to the claim as stated: `WorkerChannel` keeps no
terminated flag, so `request` after `terminate()` does not fail fast with
`CHANNEL_TERMINATED` — it allocates id 1, registers the request in the pending
map with its timer, and posts the message to the dead worker (the promise can
only settle later, e.g. by timeout). -/
theorem c8_counterexample :
    ((WorkerChannel.fresh.terminate.1.request WAction.echo "hi" 60000).2.1 = 1) ∧
    (1, 60000) ∈ (WorkerChannel.fresh.terminate.1.request WAction.echo "hi" 60000).1.pending ∧
    (WorkerChannel.fresh.terminate.1.request WAction.echo "hi" 60000).2.2 =
      [MainToWorker.requestMsg 1 WAction.echo "hi"] := by
  decide

/-- C8 (amended): `TransferChannel.terminate` is idempotent, fails `ready` if
unresolved, rejects every pending request with `CHANNEL_TERMINATED` and makes
every later `send` fail fast with `CHANNEL_TERMINATED`.
`WorkerChannel.terminate` is likewise idempotent, fails `ready` if unresolved
and rejects every pending request with the termination error — but `request`
on a terminated `WorkerChannel` is not guarded: it registers normally and the
caller's promise is settled only by a later event such as its timeout. -/
theorem c8_amended :
    (∀ w : TCWorld, TCterminate (TCterminate w).1 = ((TCterminate w).1, [])) ∧
    (∀ w : TCWorld, w.chan.isTerminated = false →
      (TCterminate w).1.chan.isTerminated = true ∧
      (TCterminate w).1.chan.pending = [] ∧
      (w.chan.readyState = none → (TCterminate w).1.chan.readyState = some false) ∧
      (TCterminate w).2 = w.chan.pending.map (fun p =>
        (p.1, TCSettle.rejectedErr TCErrorCode.channelTerminated tcMainTerminatedText))) ∧
    (∀ (w : TCWorld) (b : Nat) (mode : TransferMode) (t : Nat),
      w.chan.isTerminated = true →
      TCsend w b mode t =
        (w, SendOutcome.rejectedFast TCErrorCode.channelTerminated tcTerminatedText)) ∧
    (∀ s : WorkerChannel,
      WorkerChannel.terminate (s.terminate).1 = ((s.terminate).1, []) ∧
      (s.readyState = none → (s.terminate).1.readyState = some false) ∧
      (s.terminate).1.pending = [] ∧
      (s.terminate).2 = s.pending.map (fun p =>
        (p.1, WSettle.rejectedMsg mainTerminatedText))) ∧
    (∀ (s : WorkerChannel) (a : WAction) (p : String) (t : Nat),
      ((s.terminate).1.request a p t).1.pending = [((s.terminate).1.requestId, t)] ∧
      (((s.terminate).1.request a p t).1.timerFire (s.terminate).1.requestId).2 =
        [((s.terminate).1.requestId, WSettle.rejectedMsg (timeoutText t))]) := by
  refine ⟨?_, ?_, ?_, ?_, ?_⟩
  · intro w
    by_cases hT : w.chan.isTerminated
    · simp [TCterminate, hT]
    · simp [TCterminate, hT]
  · intro w hT
    refine ⟨?_, ?_, ?_, ?_⟩ <;> simp [TCterminate, hT]
    intro h
    simp [h]
  · intro w b mode t hT
    simp [TCsend, hT]
  · intro s
    refine ⟨?_, ?_, rfl, rfl⟩
    · simp only [WorkerChannel.terminate]
      cases hrs : s.readyState <;> simp [hrs]
    · intro h
      simp [WorkerChannel.terminate, h]
  · intro s a p t
    constructor
    · simp [WorkerChannel.request, WorkerChannel.terminate]
    · simp [WorkerChannel.request, WorkerChannel.terminate, WorkerChannel.timerFire,
        mfind, List.find?_cons]

/-- Witness for C8 (amended): concrete terminated channels — `send` rejects
fast, a second `terminate` is a no-op, and `request` on a terminated
`WorkerChannel` still registers id 1 and later rejects by timeout. -/
theorem c8_witness :
    (TCsend termWorld0 0 TransferMode.transfer 30000 =
      (termWorld0,
       SendOutcome.rejectedFast TCErrorCode.channelTerminated tcTerminatedText)) ∧
    (TCterminate (TCterminate ⟨TransferChannel.fresh, []⟩).1 =
      ((TCterminate ⟨TransferChannel.fresh, []⟩).1, [])) ∧
    ((TCterminate ⟨TransferChannel.fresh, []⟩).1.chan.readyState = some false) ∧
    ((WorkerChannel.fresh.terminate.1.request WAction.echo "hi" 60000).1.timerFire 1).2 =
      [(1, WSettle.rejectedMsg (timeoutText 60000))] := by
  have h1 := c8_amended.2.2.1 termWorld0 0 TransferMode.transfer 30000 rfl
  have h2 := c8_amended.1 ⟨TransferChannel.fresh, []⟩
  have h3 := (c8_amended.2.1 ⟨TransferChannel.fresh, []⟩ rfl).2.2.1 rfl
  have h4 := (c8_amended.2.2.2.2 WorkerChannel.fresh WAction.echo "hi" 60000).2
  exact ⟨h1, h2, h3, h4⟩

/- ────────────────── Claim C2: exactly-once settlement, no cross-talk ────────────────── -/

theorem stepWC_emit (s : WorkerChannel) (e : WEvent) :
    ∀ x ∈ (stepWC s e).2,
      causes e x.1 x.2 ∧ x.1 ∈ s.pending.map Prod.fst ∧
      x.1 ∉ (stepWC s e).1.pending.map Prod.fst := by
  intro x hx
  cases e with
  | req a p t => simp [stepWC] at hx
  | fromWorker m =>
      cases m with
      | readyMsg => simp [stepWC, WorkerChannel.handleMessage] at hx
      | progressMsg i pct => simp [stepWC, WorkerChannel.handleMessage] at hx
      | responseMsg r =>
          cases hf : mfind s.pending r.id with
          | none => simp [stepWC, WorkerChannel.handleMessage, hf] at hx
          | some pr =>
              obtain ⟨hprmem, hprid⟩ := mem_of_mfind hf
              have hkey : r.id ∈ s.pending.map Prod.fst :=
                List.mem_map.mpr ⟨pr, hprmem, hprid⟩
              cases hok : r.ok with
              | true =>
                  simp only [stepWC, WorkerChannel.handleMessage, hf, hok,
                    if_true, List.mem_singleton] at hx
                  subst hx
                  refine ⟨⟨rfl, Or.inl ⟨hok, rfl⟩⟩, hkey, ?_⟩
                  simp only [stepWC, WorkerChannel.handleMessage, hf, hok, if_true]
                  exact not_mem_keys_mdelete_self s.pending r.id
              | false =>
                  simp only [stepWC, WorkerChannel.handleMessage, hf, hok,
                    Bool.false_eq_true, if_false, List.mem_singleton] at hx
                  subst hx
                  refine ⟨⟨rfl, Or.inr ⟨hok, rfl⟩⟩, hkey, ?_⟩
                  simp only [stepWC, WorkerChannel.handleMessage, hf, hok,
                    Bool.false_eq_true, if_false]
                  exact not_mem_keys_mdelete_self s.pending r.id
  | timerFire id =>
      cases hf : mfind s.pending id with
      | none => simp [stepWC, WorkerChannel.timerFire, hf] at hx
      | some pr =>
          obtain ⟨hprmem, hprid⟩ := mem_of_mfind hf
          have hkey : id ∈ s.pending.map Prod.fst :=
            List.mem_map.mpr ⟨pr, hprmem, hprid⟩
          simp only [stepWC, WorkerChannel.timerFire, hf, List.mem_singleton] at hx
          subst hx
          refine ⟨⟨rfl, ⟨pr.2, rfl⟩⟩, hkey, ?_⟩
          simp only [stepWC, WorkerChannel.timerFire, hf]
          exact not_mem_keys_mdelete_self s.pending id
  | cancelCall id =>
      cases hf : mfind s.pending id with
      | none => simp [stepWC, WorkerChannel.cancel, hf] at hx
      | some pr =>
          obtain ⟨hprmem, hprid⟩ := mem_of_mfind hf
          have hkey : id ∈ s.pending.map Prod.fst :=
            List.mem_map.mpr ⟨pr, hprmem, hprid⟩
          simp only [stepWC, WorkerChannel.cancel, hf, List.mem_singleton] at hx
          subst hx
          refine ⟨⟨rfl, rfl⟩, hkey, ?_⟩
          simp only [stepWC, WorkerChannel.cancel, hf]
          exact not_mem_keys_mdelete_self s.pending id
  | terminateCall =>
      simp only [stepWC, WorkerChannel.terminate, List.mem_map] at hx
      obtain ⟨p, hpmem, hpx⟩ := hx
      subst hpx
      refine ⟨rfl, List.mem_map.mpr ⟨p, hpmem, rfl⟩, ?_⟩
      simp [stepWC, WorkerChannel.terminate]

theorem stepWC_requestId_mono (s : WorkerChannel) (e : WEvent) :
    s.requestId ≤ (stepWC s e).1.requestId := by
  cases e with
  | req a p t => simp [stepWC, WorkerChannel.request]
  | fromWorker m =>
      cases m with
      | readyMsg => simp [stepWC, WorkerChannel.handleMessage]
      | progressMsg i pct => simp [stepWC, WorkerChannel.handleMessage]
      | responseMsg r =>
          cases hf : mfind s.pending r.id with
          | none => simp [stepWC, WorkerChannel.handleMessage, hf]
          | some pr =>
              cases hok : r.ok <;>
                simp [stepWC, WorkerChannel.handleMessage, hf, hok]
  | timerFire id =>
      cases hf : mfind s.pending id with
      | none => simp [stepWC, WorkerChannel.timerFire, hf]
      | some pr => simp [stepWC, WorkerChannel.timerFire, hf]
  | cancelCall id =>
      cases hf : mfind s.pending id with
      | none => simp [stepWC, WorkerChannel.cancel, hf]
      | some pr => simp [stepWC, WorkerChannel.cancel, hf]
  | terminateCall => simp [stepWC, WorkerChannel.terminate]

theorem stepWC_dead (s : WorkerChannel) (e : WEvent) (id : Nat)
    (h1 : id < s.requestId) (h2 : id ∉ s.pending.map Prod.fst) :
    id < (stepWC s e).1.requestId ∧
    id ∉ (stepWC s e).1.pending.map Prod.fst := by
  cases e with
  | req a p t =>
      constructor
      · simp only [stepWC, WorkerChannel.request]
        omega
      · simp only [stepWC, WorkerChannel.request, List.map_append]
        intro hmem
        rcases List.mem_append.mp hmem with hm | hm
        · exact h2 hm
        · simp at hm
          omega
  | fromWorker m =>
      cases m with
      | readyMsg => exact ⟨h1, h2⟩
      | progressMsg i pct => exact ⟨h1, h2⟩
      | responseMsg r =>
          cases hf : mfind s.pending r.id with
          | none =>
              simp only [stepWC, WorkerChannel.handleMessage, hf]
              exact ⟨h1, h2⟩
          | some pr =>
              cases hok : r.ok <;>
                [skip; skip] <;>
                · simp only [stepWC, WorkerChannel.handleMessage, hf, hok]
                  refine ⟨by simpa using h1, ?_⟩
                  intro hmem
                  exact h2 (keys_mdelete_subset (by simpa using hmem))
  | timerFire id' =>
      cases hf : mfind s.pending id' with
      | none =>
          simp only [stepWC, WorkerChannel.timerFire, hf]
          exact ⟨h1, h2⟩
      | some pr =>
          simp only [stepWC, WorkerChannel.timerFire, hf]
          exact ⟨h1, fun hmem => h2 (keys_mdelete_subset hmem)⟩
  | cancelCall id' =>
      cases hf : mfind s.pending id' with
      | none =>
          simp only [stepWC, WorkerChannel.cancel, hf]
          exact ⟨h1, h2⟩
      | some pr =>
          simp only [stepWC, WorkerChannel.cancel, hf]
          exact ⟨h1, fun hmem => h2 (keys_mdelete_subset hmem)⟩
  | terminateCall =>
      simp only [stepWC, WorkerChannel.terminate]
      exact ⟨h1, by simp⟩

theorem stepWC_inv (s : WorkerChannel) (e : WEvent) (h : WCinv s) :
    WCinv (stepWC s e).1 := by
  obtain ⟨hbound, hnd⟩ := h
  cases e with
  | req a p t =>
      constructor
      · simp only [stepWC, WorkerChannel.request, List.map_append]
        intro k hk
        rcases List.mem_append.mp hk with hm | hm
        · have := hbound k hm
          omega
        · simp at hm
          omega
      · simp only [stepWC, WorkerChannel.request, List.map_append]
        rw [List.nodup_append]
        refine ⟨hnd, by simp, ?_⟩
        intro k hk hk'
        simp at hk'
        subst hk'
        exact absurd (hbound _ hk) (by omega)
  | fromWorker m =>
      cases m with
      | readyMsg => exact ⟨hbound, hnd⟩
      | progressMsg i pct => exact ⟨hbound, hnd⟩
      | responseMsg r =>
          cases hf : mfind s.pending r.id with
          | none =>
              simp only [stepWC, WorkerChannel.handleMessage, hf]
              exact ⟨hbound, hnd⟩
          | some pr =>
              cases hok : r.ok <;>
                [skip; skip] <;>
                · simp only [stepWC, WorkerChannel.handleMessage, hf, hok]
                  refine ⟨?_, by simpa using keys_mdelete_nodup hnd⟩
                  intro k hk
                  exact hbound k (keys_mdelete_subset (by simpa using hk))
  | timerFire id =>
      cases hf : mfind s.pending id with
      | none =>
          simp only [stepWC, WorkerChannel.timerFire, hf]
          exact ⟨hbound, hnd⟩
      | some pr =>
          simp only [stepWC, WorkerChannel.timerFire, hf]
          exact ⟨fun k hk => hbound k (keys_mdelete_subset hk), keys_mdelete_nodup hnd⟩
  | cancelCall id =>
      cases hf : mfind s.pending id with
      | none =>
          simp only [stepWC, WorkerChannel.cancel, hf]
          exact ⟨hbound, hnd⟩
      | some pr =>
          simp only [stepWC, WorkerChannel.cancel, hf]
          exact ⟨fun k hk => hbound k (keys_mdelete_subset hk), keys_mdelete_nodup hnd⟩
  | terminateCall =>
      simp only [stepWC, WorkerChannel.terminate]
      exact ⟨by simp, by simp⟩

theorem stepWC_emit_nodup (s : WorkerChannel) (e : WEvent) (h : WCinv s) :
    ((stepWC s e).2.map Prod.fst).Nodup := by
  cases e with
  | req a p t => simp [stepWC]
  | fromWorker m =>
      cases m with
      | readyMsg => simp [stepWC, WorkerChannel.handleMessage]
      | progressMsg i pct => simp [stepWC, WorkerChannel.handleMessage]
      | responseMsg r =>
          cases hf : mfind s.pending r.id with
          | none => simp [stepWC, WorkerChannel.handleMessage, hf]
          | some pr =>
              cases hok : r.ok <;>
                simp [stepWC, WorkerChannel.handleMessage, hf, hok]
  | timerFire id =>
      cases hf : mfind s.pending id with
      | none => simp [stepWC, WorkerChannel.timerFire, hf]
      | some pr => simp [stepWC, WorkerChannel.timerFire, hf]
  | cancelCall id =>
      cases hf : mfind s.pending id with
      | none => simp [stepWC, WorkerChannel.cancel, hf]
      | some pr => simp [stepWC, WorkerChannel.cancel, hf]
  | terminateCall =>
      simp only [stepWC, WorkerChannel.terminate, List.map_map]
      have : (Prod.fst ∘ fun p : Nat × Nat =>
          (p.1, WSettle.rejectedMsg mainTerminatedText)) = Prod.fst := by
        funext p
        rfl
      rw [this]
      exact h.2

theorem runWC_dead :
    ∀ (evs : List WEvent) (s : WorkerChannel) (id : Nat),
      id < s.requestId → id ∉ s.pending.map Prod.fst →
      id < (runWC s evs).1.requestId ∧
      id ∉ (runWC s evs).1.pending.map Prod.fst ∧
      id ∉ (runWC s evs).2.map Prod.fst := by
  intro evs
  induction evs with
  | nil =>
      intro s id h1 h2
      exact ⟨h1, h2, by simp [runWC]⟩
  | cons e es ih =>
      intro s id h1 h2
      have hd := stepWC_dead s e id h1 h2
      have ihr := ih (stepWC s e).1 id hd.1 hd.2
      have hnotemit : id ∉ (stepWC s e).2.map Prod.fst := by
        intro hmem
        obtain ⟨x, hx, hxid⟩ := List.mem_map.mp hmem
        have hm := (stepWC_emit s e x hx).2.1
        rw [hxid] at hm
        exact h2 hm
      refine ⟨by simpa [runWC] using ihr.1, by simpa [runWC] using ihr.2.1, ?_⟩
      simp only [runWC, List.map_append]
      intro hmem
      rcases List.mem_append.mp hmem with hm | hm
      · exact hnotemit hm
      · exact ihr.2.2 hm

theorem runWC_sound :
    ∀ (evs : List WEvent) (s : WorkerChannel), WCinv s →
      WCinv (runWC s evs).1 ∧
      ((runWC s evs).2.map Prod.fst).Nodup ∧
      (∀ x ∈ (runWC s evs).2, ∃ e ∈ evs, causes e x.1 x.2) ∧
      (∀ x ∈ (runWC s evs).2, x.1 ∉ (runWC s evs).1.pending.map Prod.fst) := by
  intro evs
  induction evs with
  | nil =>
      intro s h
      refine ⟨h, by simp [runWC], ?_, ?_⟩ <;> intro x hx <;> simp [runWC] at hx
  | cons e es ih =>
      intro s h
      have hinv1 := stepWC_inv s e h
      have ihr := ih (stepWC s e).1 hinv1
      have hdead1 : ∀ x ∈ (stepWC s e).2,
          x.1 < (stepWC s e).1.requestId ∧
          x.1 ∉ (stepWC s e).1.pending.map Prod.fst := by
        intro x hx
        have he := stepWC_emit s e x hx
        refine ⟨?_, he.2.2⟩
        have hlt := h.1 x.1 he.2.1
        have hmono := stepWC_requestId_mono s e
        omega
      refine ⟨by simpa [runWC] using ihr.1, ?_, ?_, ?_⟩
      · simp only [runWC, List.map_append]
        rw [List.nodup_append]
        refine ⟨stepWC_emit_nodup s e h, ihr.2.1, ?_⟩
        intro k hk hk'
        obtain ⟨x, hx, hxid⟩ := List.mem_map.mp hk
        have hd := hdead1 x hx
        have := runWC_dead es (stepWC s e).1 x.1 hd.1 hd.2
        rw [hxid] at this
        exact this.2.2 hk'
      · simp only [runWC]
        intro x hx
        rcases List.mem_append.mp hx with hm | hm
        · exact ⟨e, List.mem_cons_self e es, (stepWC_emit s e x hm).1⟩
        · obtain ⟨e', he', hc⟩ := ihr.2.2.1 x hm
          exact ⟨e', List.mem_cons_of_mem e he', hc⟩
      · simp only [runWC]
        intro x hx
        rcases List.mem_append.mp hx with hm | hm
        · have hd := hdead1 x hm
          exact (runWC_dead es (stepWC s e).1 x.1 hd.1 hd.2).2.1
        · exact ihr.2.2.2 x hm

/-- C2: over any event trace on a fresh `WorkerChannel`, (i) every request id
settles at most once — the settlement list never repeats an id, so whichever
of response/timeout/cancel/terminate comes first wins and every later event
for that id is a no-op; (ii) every settlement is caused by an event of the
trace carrying that very id, and a resolution's value is exactly the matching
response's `{data, duration, action}` — no cross-talk between outstanding
requests; (iii) a settled id is never pending again. -/
theorem c2_exactly_once_no_crosstalk (evs : List WEvent) :
    ((runWC WorkerChannel.fresh evs).2.map Prod.fst).Nodup ∧
    (∀ x ∈ (runWC WorkerChannel.fresh evs).2, ∃ e ∈ evs, causes e x.1 x.2) ∧
    (∀ x ∈ (runWC WorkerChannel.fresh evs).2,
      x.1 ∉ (runWC WorkerChannel.fresh evs).1.pending.map Prod.fst) := by
  have hinv : WCinv WorkerChannel.fresh := by
    constructor <;> simp [WorkerChannel.fresh, WCinv]
  have h := runWC_sound evs WorkerChannel.fresh hinv
  exact ⟨h.2.1, h.2.2.1, h.2.2.2⟩

/-- Witness for C2 on a concrete trace (request, matching response, late
cancel): settlement ids are duplicate-free, and the resolution of id 1 is
caused by an event of the trace. -/
theorem c2_witness :
    ((runWC WorkerChannel.fresh c2trace).2.map Prod.fst).Nodup ∧
    (∃ e ∈ c2trace, causes e 1 (WSettle.resolvedData "hi" 5 WAction.echo)) := by
  have h := c2_exactly_once_no_crosstalk c2trace
  exact ⟨h.1, h.2.1 (1, WSettle.resolvedData "hi" 5 WAction.echo) (by decide)⟩
